import Mathlib

/-!
Verification development for the SeaSight isochrone maritime router.

The embedded program is the C++ core in
packages/router-core/src/isochrone_router.{hpp,cpp}: the isochrone
time-expansion engine (solveInternal), its hierarchical corridor dispatcher
(solve), the geodesic helpers, and the Douglas-Peucker simplifier.

Modelling conventions, used throughout:
- C++ doubles are embedded as exact rationals.  The transcendental and
  irrational primitives used by the code (std::sin, std::cos, std::asin,
  std::atan2, std::sqrt) have no exact rational counterpart, so they are
  abstracted into a record of primitive functions (Prims) over which every
  definition and theorem is parametric; all remaining arithmetic (+, -, *, /,
  comparisons, fmod, ceil, integer casts) is embedded exactly.
- C++ ints are embedded as integers; vector indices into the state arena are
  naturals.  The sentinel value -1 used by the source for parent_index and
  best_goal_index is kept as the integer -1.
- The NaN sentinel used for the undefined heading of the start state is
  embedded as Option: none stands for NaN, and the isnan test of the source
  becomes an Option.isSome test.
- while loops of the source become fuel-bounded or well-founded recursion;
  each such definition documents how its fuel relates to the loop bound of
  the source.
-/

set_option maxRecDepth 40000

namespace SeaSight

/-! ### Exact numeric primitives -/

/-- Floor of a rational as an integer, computable by kernel reduction
(numerator divided by denominator with Euclidean division). -/
def ratFloor (q : ℚ) : ℤ := q.num / (q.den : ℤ)

/-- Ceiling of a rational, computable. Mirrors std::ceil on exact values. -/
def ratCeil (q : ℚ) : ℤ := -(ratFloor (-q))

/-- The C++ conversion static_cast<int> on a double: truncation toward zero. -/
def cppTrunc (q : ℚ) : ℤ := if q < 0 then ratCeil q else ratFloor q

/-- std::fmod for a nonnegative divisor context: x - y * trunc(x / y).
This is the exact semantics of fmod on exact values. -/
def ratFmod (x y : ℚ) : ℚ := x - y * (cppTrunc (x / y) : ℚ)

theorem ratFloor_eq_intFloor (q : ℚ) : ratFloor q = ⌊q⌋ := by
  have h : ((q.num : ℚ) / (q.den : ℚ)) = q := Rat.num_div_den q
  have := Rat.floor_intCast_div_natCast q.num q.den
  rw [h] at this
  simpa [ratFloor] using this.symm

theorem ratFloor_le (q : ℚ) : (ratFloor q : ℚ) ≤ q := by
  rw [ratFloor_eq_intFloor]; exact Int.floor_le q

theorem le_ratFloor_of_le {n : ℤ} {q : ℚ} (h : (n : ℚ) ≤ q) : n ≤ ratFloor q := by
  rw [ratFloor_eq_intFloor]; exact Int.le_floor.mpr h

theorem ratCeil_eq_intCeil (q : ℚ) : ratCeil q = ⌈q⌉ := by
  rw [ratCeil, ratFloor_eq_intFloor, Int.floor_neg, neg_neg]

/-- The record of primitive real functions the C++ source takes from libm.
Every engine definition is parametric in these; theorems that need analytic
facts about them (for example that sqrt is nonnegative on nonnegative
arguments) take those facts as explicit hypotheses, which hold for the
actual library functions. -/
structure Prims where
  sin : ℚ → ℚ
  cos : ℚ → ℚ
  asin : ℚ → ℚ
  atan2 : ℚ → ℚ → ℚ
  sqrt : ℚ → ℚ

/-- Earth radius in nautical miles, exactly the decimal literal of the source. -/
def EARTH_RADIUS_NM : ℚ := 3440.065

/-- The PI constant of the source, exactly its decimal literal. -/
def sourcePI : ℚ := 3.14159265358979323846

/-- The EPS constant of the source. -/
def EPS : ℚ := 1/1000000

/-- std::numeric_limits<double>::max(), the exact value of DBL_MAX,
which is (2^53 - 1) * 2^971, written as an explicit numeral. -/
def DBL_MAX : ℚ := 179769313486231570814527423731704356798070567525844996598917476803157260780028538760589558632766878171540458953514382464234321326889464182768467546703537516986049910576551282076245490090389328944075868508455133942304583236903222948165808559332123348274797826204144723168738177180919299881250404026184124858368

/-! ### Data model (isochrone_router.hpp), with the default member values
of the header as Lean default field values. -/

structure GeoPoint where
  lat : ℚ := 0
  lon : ℚ := 0
deriving DecidableEq, Repr

structure ShipModel where
  calm_speed_kts : ℚ := 14
  draft_m : ℚ := 7
  safety_depth_buffer_m : ℚ := 1.5
  max_wave_height_m : ℚ := 4.5
  max_heading_change_deg : ℚ := 45
  min_speed_kts : ℚ := 3
  wave_drag_coefficient : ℚ := 0.8
deriving DecidableEq, Repr

structure Settings where
  time_step_minutes : ℚ := 45
  heading_count : ℤ := 16
  merge_radius_nm : ℚ := 15
  goal_radius_nm : ℚ := 25
  max_hours : ℚ := 240
  simplify_tolerance_nm : ℚ := 1.5
  min_leg_nm : ℚ := 2
  min_heading_deg : ℚ := 5
  bearing_window_deg : ℚ := 60
  beam_width : ℤ := 1000
  min_time_step_minutes : ℚ := 15
  max_time_step_minutes : ℚ := 120
  complexity_threshold : ℚ := 0.5
  enable_adaptive_sampling : Bool := true
  enable_hierarchical_routing : Bool := true
  long_route_threshold_nm : ℚ := 300
  coarse_grid_resolution_deg : ℚ := 1
  corridor_width_nm : ℚ := 50
deriving DecidableEq, Repr

namespace HazardFlags

def NONE : ℕ := 0

def HIGH_WAVE : ℕ := 1

end HazardFlags

structure Request where
  start : GeoPoint := {}
  goal : GeoPoint := {}
  departure_time_hours : ℚ := 0
  ship : ShipModel := {}
  settings : Settings := {}
deriving DecidableEq, Repr

structure EnvironmentSample where
  current_east_kn : ℚ := 0
  current_north_kn : ℚ := 0
  wave_height_m : ℚ := 0
  depth_m : ℚ := 5000
deriving DecidableEq, Repr

/-- The sampler capability (lat, lon, time) -> sample. -/
abbrev EnvironmentSampler : Type := ℚ → ℚ → ℚ → EnvironmentSample

structure Waypoint where
  lat : ℚ := 0
  lon : ℚ := 0
  time_hours : ℚ := 0
  heading_deg : Option ℚ := none
  is_course_change : Bool := false
  max_wave_height_m : ℚ := 0
  hazard_flags : ℕ := 0
deriving DecidableEq, Repr

structure Diagnostics where
  total_distance_nm : ℚ := 0
  eta_hours : ℚ := 0
  average_speed_kts : ℚ := 0
  max_wave_height_m : ℚ := 0
  step_count : ℤ := 0
  frontier_size : ℤ := 0
  reached_goal : Bool := false
  final_distance_to_goal_nm : ℚ := 0
  hazard_flags : ℕ := 0
deriving DecidableEq, Repr

structure Result where
  waypoints : List Waypoint := []
  waypoints_raw : List Waypoint := []
  index_map : List ℤ := []
  diagnostics : Diagnostics := {}
  is_coarse_route : Bool := false
deriving DecidableEq, Repr

structure Corridor where
  centerline : List GeoPoint := []
  width_nm : ℚ := 0
deriving DecidableEq, Repr

structure State where
  position : GeoPoint := {}
  time_hours : ℚ := 0
  heading_deg : Option ℚ := none
  parent_index : ℤ := -1
  cumulative_distance_nm : ℚ := 0
  segment_distance_nm : ℚ := 0
  effective_speed_kts : ℚ := 0
  max_wave_height_m : ℚ := 0
  hazard_flags : ℕ := 0
deriving DecidableEq, Repr

/-! ### Utility functions (isochrone_router.cpp lines 314-392) -/

/-- IsochroneRouter::clamp. -/
def clamp (value min_value max_value : ℚ) : ℚ :=
  if value < min_value then min_value
  else if value > max_value then max_value
  else value

def degToRad (deg : ℚ) : ℚ := deg * sourcePI / 180

def radToDeg (rad : ℚ) : ℚ := rad * 180 / sourcePI

/-- First loop of normalizeLongitude: subtract 360 while lon >= 180. -/
def normalizeLongitudeDown (lon : ℚ) : ℚ :=
  if h : lon ≥ 180 then normalizeLongitudeDown (lon - 360) else lon
termination_by (ratCeil ((lon - 180) / 360) + 1).toNat
decreasing_by
  have h1 : (0:ℚ) ≤ (lon - 180) / 360 := by
    apply div_nonneg (by linarith) (by norm_num)
  have h2 : (0:ℤ) ≤ ratCeil ((lon - 180) / 360) := by
    rw [ratCeil_eq_intCeil]; exact Int.ceil_nonneg h1
  have h3 : ratCeil ((lon - 360 - 180) / 360) = ratCeil ((lon - 180) / 360) - 1 := by
    rw [ratCeil_eq_intCeil, ratCeil_eq_intCeil]
    have harg : (lon - 360 - 180) / 360 = (lon - 180) / 360 - (1 : ℤ) := by
      push_cast; ring
    rw [harg, Int.ceil_sub_int]
  omega

/-- Second loop of normalizeLongitude: add 360 while lon < -180. -/
def normalizeLongitudeUp (lon : ℚ) : ℚ :=
  if h : lon < -180 then normalizeLongitudeUp (lon + 360) else lon
termination_by (ratCeil ((-180 - lon) / 360)).toNat
decreasing_by
  have h1 : (0:ℚ) < (-180 - lon) / 360 := by
    apply div_pos (by linarith) (by norm_num)
  have h2 : (0:ℤ) < ratCeil ((-180 - lon) / 360) := by
    rw [ratCeil_eq_intCeil]; exact Int.ceil_pos.mpr h1
  have h3 : ratCeil ((-180 - (lon + 360)) / 360) = ratCeil ((-180 - lon) / 360) - 1 := by
    rw [ratCeil_eq_intCeil, ratCeil_eq_intCeil]
    have harg : (-180 - (lon + 360)) / 360 = (-180 - lon) / 360 - (1 : ℤ) := by
      push_cast; ring
    rw [harg, Int.ceil_sub_int]
  omega

/-- IsochroneRouter::normalizeLongitude: the two sequential while loops. -/
def normalizeLongitude (lon : ℚ) : ℚ :=
  normalizeLongitudeUp (normalizeLongitudeDown lon)

/-- IsochroneRouter::headingDifference. -/
def headingDifference (a b : ℚ) : ℚ :=
  let diff := ratFmod |a - b| 360
  if diff > 180 then 360 - diff else diff

/-- static double safeHypot (anonymous helper of the source). -/
def safeHypot (P : Prims) (a b : ℚ) : ℚ := P.sqrt (a * a + b * b)

/-- IsochroneRouter::greatCircleDistance (haversine as written in the source). -/
def greatCircleDistance (P : Prims) (a b : GeoPoint) : ℚ :=
  let lat1 := degToRad a.lat
  let lat2 := degToRad b.lat
  let dlat := lat2 - lat1
  let dlon0 := degToRad (b.lon - a.lon)
  let dlon := if dlon0 > sourcePI then dlon0 - 2 * sourcePI
              else if dlon0 < -sourcePI then dlon0 + 2 * sourcePI
              else dlon0
  let sin_dlat := P.sin (dlat / 2)
  let sin_dlon := P.sin (dlon / 2)
  let a_val := sin_dlat * sin_dlat + P.cos lat1 * P.cos lat2 * sin_dlon * sin_dlon
  let c := 2 * P.atan2 (P.sqrt a_val) (P.sqrt (max 0 (1 - a_val)))
  EARTH_RADIUS_NM * c

/-- IsochroneRouter::advancePosition (forward geodesic as written). -/
def advancePosition (P : Prims) (origin : GeoPoint) (heading_deg distance_nm : ℚ) : GeoPoint :=
  let heading_rad := degToRad heading_deg
  let angular_distance := distance_nm / EARTH_RADIUS_NM
  let lat1 := degToRad origin.lat
  let lon1 := degToRad origin.lon
  let sin_lat1 := P.sin lat1
  let cos_lat1 := P.cos lat1
  let sin_ad := P.sin angular_distance
  let cos_ad := P.cos angular_distance
  let lat2 := P.asin (sin_lat1 * cos_ad + cos_lat1 * sin_ad * P.cos heading_rad)
  let lon2 := lon1 + P.atan2 (P.sin heading_rad * sin_ad * cos_lat1)
                             (cos_ad - sin_lat1 * P.sin lat2)
  { lat := radToDeg lat2, lon := normalizeLongitude (radToDeg lon2) }

/-- IsochroneRouter::greatCircleBearing. -/
def greatCircleBearing (P : Prims) (from_pt to_pt : GeoPoint) : ℚ :=
  let lat1 := degToRad from_pt.lat
  let lon1 := degToRad from_pt.lon
  let lat2 := degToRad to_pt.lat
  let lon2 := degToRad to_pt.lon
  let dLon := lon2 - lon1
  let y := P.sin dLon * P.cos lat2
  let x := P.cos lat1 * P.sin lat2 - P.sin lat1 * P.cos lat2 * P.cos dLon
  radToDeg (P.atan2 y x)

/-- crossTrackDistance (anonymous namespace of the source). -/
def crossTrackDistance (P : Prims) (p a b : GeoPoint) : ℚ :=
  let dist_ap := greatCircleDistance P a p
  if dist_ap < EPS then 0
  else
    let bearing_ap := greatCircleBearing P a p
    let bearing_ab := greatCircleBearing P a b
    let angle_diff_rad := degToRad (bearing_ap - bearing_ab)
    let delta13 := dist_ap / EARTH_RADIUS_NM
    let sin_term := clamp (P.sin delta13 * P.sin angle_diff_rad) (-1) 1
    let d_xt_rad := P.asin sin_term
    let d_xt := |d_xt_rad * EARTH_RADIUS_NM|
    let along_track_rad := P.atan2 (P.sin delta13 * P.cos angle_diff_rad) (P.cos delta13)
    let d_at := along_track_rad * EARTH_RADIUS_NM
    let dist_ab := greatCircleDistance P a b
    if d_at < 0 ∨ d_at > dist_ab then
      min dist_ap (greatCircleDistance P b p)
    else d_xt

/-- IsochroneRouter::calculateComplexity. The source also receives the State
but never reads it; the parameter is kept for fidelity. -/
def calculateComplexity (_state : State) (env : EnvironmentSample) (settings : Settings) : ℚ :=
  if ¬ settings.enable_adaptive_sampling then 0
  else
    let wave_complexity := min (env.wave_height_m / 8) 1
    let depth_complexity := if env.depth_m < 100 then min ((100 - env.depth_m) / 100) 1 else 0
    wave_complexity * (7/10) + depth_complexity * (3/10)

/-- toGeoPoint (anonymous namespace of the source). -/
def toGeoPoint (wp : Waypoint) : GeoPoint := { lat := wp.lat, lon := wp.lon }

/-! ### Small list helpers used to embed index loops of the source -/

/-- The integers lo, lo+1, ..., hi-1, embedding a C for loop over ints. -/
def intRange (lo hi : ℤ) : List ℤ :=
  (List.range (hi - lo).toNat).map (fun k : ℕ => lo + (k : ℤ))

/-- Indexing a waypoint vector with a C int index; out-of-range access is
undefined behavior in the source and is modelled by a default waypoint
(the theorems only visit in-range indices). -/
def wpAt (pts : List Waypoint) (i : ℤ) : Waypoint := pts.getD i.toNat {}

/-- Indexing the state arena. -/
def stateAt (states : List State) (i : ℕ) : State := states.getD i {}

/-- Insertion step of the sort used to embed std::sort: stable, keeping
earlier elements first on ties. -/
def sortInsert {α : Type} (le : α → α → Bool) (x : α) : List α → List α
  | [] => [x]
  | y :: ys => if le x y then x :: y :: ys else y :: sortInsert le x ys

/-- Sorting function used to embed std::sort.  On a total order without ties
(sorting int indices) its output is the unique sorted permutation, exactly
what std::sort produces; on the beam-prune comparator it fixes the
tie order, which std::sort leaves unspecified. -/
def sortBy {α : Type} (le : α → α → Bool) : List α → List α
  | [] => []
  | x :: xs => sortInsert le x (sortBy le xs)

/-- std::unique on a list of ints: drop elements equal to their predecessor. -/
def cppUniqueFrom (prev : ℤ) : List ℤ → List ℤ
  | [] => []
  | y :: ys => if y = prev then cppUniqueFrom prev ys else y :: cppUniqueFrom y ys

/-- std::unique followed by erase, as applied by the source to the sorted
index list. -/
def cppUnique : List ℤ → List ℤ
  | [] => []
  | x :: xs => x :: cppUniqueFrom x xs

/-! ### Douglas-Peucker simplifier (isochrone_router.cpp lines 421-437) -/

/-- The inner argmax loop of dpSimplifyRecursive: scan i = start+1 .. end-1,
keeping the first index whose distance strictly exceeds the running maximum
(which starts at 0 with index -1). -/
def dpMaxFold (f : ℤ → ℚ) (l : List ℤ) : ℚ × ℤ :=
  l.foldl (fun md i => if f i > md.1 then (f i, i) else md) (0, -1)

/-- Cross-track distance of interior index i to the chord (start, end). -/
def dpDist (P : Prims) (points : List Waypoint) (start_idx end_idx i : ℤ) : ℚ :=
  crossTrackDistance P (toGeoPoint (wpAt points i))
    (toGeoPoint (wpAt points start_idx)) (toGeoPoint (wpAt points end_idx))

/-- The (max distance, argmax index) pair of the loop at lines 423-431. -/
def dpMaxOf (P : Prims) (points : List Waypoint) (start_idx end_idx : ℤ) : ℚ × ℤ :=
  dpMaxFold (dpDist P points start_idx end_idx) (intRange (start_idx + 1) end_idx)

/-- dpSimplifyRecursive.  The source recurses on (start, max_idx) and
(max_idx, end) and pushes max_idx in between; preserve_indices is accepted
but never read, exactly as in the source.  When max_dist > tolerance while
no interior index was found (max_idx still -1, possible only for a negative
tolerance since distances never drop the running maximum below 0), the
source would recurse through points[-1], which is undefined behavior; that
branch is cut off here and is proved unreachable for positive tolerance. -/
def dpSimplifyRecursive (P : Prims) (points : List Waypoint) (tolerance_nm : ℚ)
    (start_idx end_idx : ℤ) (preserve_indices : List ℤ) : List ℤ :=
  if start_idx ≥ end_idx then []
  else
    if (dpMaxOf P points start_idx end_idx).1 > tolerance_nm then
      if _h : start_idx < (dpMaxOf P points start_idx end_idx).2 ∧
          (dpMaxOf P points start_idx end_idx).2 < end_idx then
        dpSimplifyRecursive P points tolerance_nm start_idx
            (dpMaxOf P points start_idx end_idx).2 preserve_indices
          ++ (dpMaxOf P points start_idx end_idx).2 ::
            dpSimplifyRecursive P points tolerance_nm
              (dpMaxOf P points start_idx end_idx).2 end_idx preserve_indices
      else [(dpMaxOf P points start_idx end_idx).2]
    else []
termination_by (end_idx - start_idx).toNat
decreasing_by
  · omega
  · omega

/-- The simplification postlude of solveInternal (lines 277-283): seed with
index 0, run the recursion over the whole range, append the last index,
sort ascending and remove duplicates. -/
def simplifyIndices (P : Prims) (raw : List Waypoint) (tolerance_nm : ℚ)
    (preserve_indices : List ℤ) : List ℤ :=
  cppUnique (sortBy (fun a b => decide (a ≤ b))
    ([0] ++ dpSimplifyRecursive P raw tolerance_nm 0 ((raw.length : ℤ) - 1) preserve_indices
      ++ [(raw.length : ℤ) - 1]))

/-- The simplify branch of solveInternal (lines 276-292): simplify when the
requested tolerance is positive and there are more than two raw waypoints,
otherwise copy the raw waypoints with the identity index map. -/
def simplifyStep (P : Prims) (tolerance_nm : ℚ) (raw : List Waypoint)
    (preserve_indices : List ℤ) : List Waypoint × List ℤ :=
  if tolerance_nm > 0 ∧ raw.length > 2 then
    let idxs := simplifyIndices P raw tolerance_nm preserve_indices
    (idxs.map (fun i => wpAt raw i), idxs)
  else
    (raw, (List.range raw.length).map (fun i : ℕ => (i : ℤ)))

/-! ### The isochrone engine (IsochroneRouter::solveInternal) -/

/-- Parameter clamping on entry to solveInternal (lines 65-70).  Only the
five fields below are touched; every other field, including the
adaptive-stepping fields, passes through unchanged. -/
def clampSettings (s : Settings) : Settings :=
  { s with
    time_step_minutes := clamp s.time_step_minutes 15 120,
    heading_count := cppTrunc (clamp (s.heading_count : ℚ) 8 72),
    merge_radius_nm := clamp s.merge_radius_nm 5 40,
    goal_radius_nm := clamp s.goal_radius_nm 10 60,
    max_hours := clamp (if s.max_hours ≤ 0 then 240 else s.max_hours) 12 720 }

/-- The read-only context of one solveInternal invocation. -/
structure Ctx where
  prims : Prims
  request : Request
  sampler : EnvironmentSampler
  corridor : Corridor
  use_corridor : Bool

/-- The clamped settings the loop observes. -/
def Ctx.settings (C : Ctx) : Settings := clampSettings C.request.settings

/-- bearing_increment = 360 / heading_count. -/
def Ctx.bearingIncrement (C : Ctx) : ℚ := 360 / ((C.settings).heading_count : ℚ)

/-- max_steps = int(max_hours / (min_time_step_minutes / 60)) + 1. -/
def Ctx.maxSteps (C : Ctx) : ℤ :=
  cppTrunc ((C.settings).max_hours / ((C.settings).min_time_step_minutes / 60)) + 1

/-- min_depth = draft + safety buffer, as computed at lines 156 and 182. -/
def Ctx.minDepth (C : Ctx) : ℚ :=
  C.request.ship.draft_m + C.request.ship.safety_depth_buffer_m

/-- The corridor membership test of lines 168-179: some consecutive
centerline pair has cross-track distance below the corridor width. -/
def corridorContains (P : Prims) (corridor : Corridor) (pos : GeoPoint) : Bool :=
  (corridor.centerline.zip (corridor.centerline.drop 1)).any
    (fun ab => decide (crossTrackDistance P pos ab.1 ab.2 < corridor.width_nm))

/-- The mutable locals of one layer of the main loop. -/
structure Acc where
  states : List State
  next_frontier : List ℕ
  closest_index : ℕ
  closest_distance : ℚ
  best_goal_index : ℤ
  best_goal_arrival : ℚ
  goal_reached : Bool
  reached_this_layer : Bool

/-- The first-match merge scan of lines 196-205: find the first state already
in the next frontier within merge_radius_nm of the candidate. -/
def mergeFind (C : Ctx) (states : List State) (next_frontier : List ℕ)
    (candidate : State) : Option ℕ :=
  next_frontier.find? (fun e =>
    decide (greatCircleDistance C.prims (stateAt states e).position candidate.position
      ≤ (C.settings).merge_radius_nm))

/-- The closest-state and goal bookkeeping of lines 219-231, applied to the
state stored at candidate_index. -/
def recordGoal (C : Ctx) (A : Acc) (candidate_index : ℕ) : Acc :=
  let stored := stateAt A.states candidate_index
  let goal_distance := greatCircleDistance C.prims stored.position C.request.goal
  let A1 := if goal_distance < A.closest_distance then
      { A with closest_index := candidate_index, closest_distance := goal_distance }
    else A
  if goal_distance ≤ (C.settings).goal_radius_nm then
    if stored.time_hours < A1.best_goal_arrival then
      { A1 with reached_this_layer := true,
                best_goal_arrival := stored.time_hours,
                best_goal_index := (candidate_index : ℤ),
                goal_reached := true }
    else { A1 with reached_this_layer := true }
  else A1

/-- Lines 194-231: merge the candidate into the emerging next frontier
(drop, replace in place, or append) and run the goal bookkeeping on the
stored state. -/
def mergeAndRecord (C : Ctx) (A : Acc) (candidate : State) : Acc :=
  match mergeFind C A.states A.next_frontier candidate with
  | some e =>
      if candidate.time_hours + EPS < (stateAt A.states e).time_hours then
        recordGoal C { A with states := A.states.set e candidate } e
      else A
  | none =>
      let candidate_index := A.states.length
      recordGoal C { A with states := A.states ++ [candidate],
                            next_frontier := A.next_frontier ++ [candidate_index] }
        candidate_index

/-- The candidate state as assembled at lines 139-192 (segment distance and
effective speed keep their default member values: solveInternal never
assigns them). -/
def mkCandidate (C : Ctx) (idx : ℕ) (current : State) (heading distance_nm delta_hours : ℚ)
    (env_src env_dst : EnvironmentSample) : State :=
  let peak_wave_height := max (max current.max_wave_height_m env_src.wave_height_m)
    env_dst.wave_height_m
  let wave_hazard := env_dst.wave_height_m > C.request.ship.max_wave_height_m
  { position := advancePosition C.prims current.position heading distance_nm,
    time_hours := current.time_hours + delta_hours,
    heading_deg := some heading,
    parent_index := (idx : ℤ),
    cumulative_distance_nm := current.cumulative_distance_nm + distance_nm,
    segment_distance_nm := 0,
    effective_speed_kts := 0,
    max_wave_height_m := peak_wave_height,
    hazard_flags := current.hazard_flags |||
      (if wave_hazard then HazardFlags.HIGH_WAVE else HazardFlags.NONE) }

/-- The intermediate land and shallow check of lines 143-164. -/
def intersectsLandOrShallow (C : Ctx) (current : State) (heading distance_nm delta_hours : ℚ) : Bool :=
  let intermediate_samples_count := max 2 (min (ratCeil (distance_nm / 2)) 50)
  (intRange 1 intermediate_samples_count).any (fun s : ℤ =>
    let fraction := (s : ℚ) / (intermediate_samples_count : ℚ)
    let midpoint := advancePosition C.prims current.position heading (distance_nm * fraction)
    let env_mid := C.sampler midpoint.lat midpoint.lon
      (current.time_hours + delta_hours * fraction)
    decide (env_mid.depth_m < C.minDepth ∨ env_mid.depth_m = 0))

/-- The through-water and ground speed model plus time step, giving the
candidate leg length of line 135. -/
def legDistance (C : Ctx) (env_src : EnvironmentSample) (heading delta_hours : ℚ) : ℚ :=
  let through_water_speed := max
    (C.request.ship.calm_speed_kts - C.request.ship.wave_drag_coefficient * env_src.wave_height_m)
    C.request.ship.min_speed_kts
  let heading_rad := degToRad heading
  let ground_speed := safeHypot C.prims
    (through_water_speed * C.prims.cos heading_rad + env_src.current_north_kn)
    (through_water_speed * C.prims.sin heading_rad + env_src.current_east_kn)
  max ground_speed C.request.ship.min_speed_kts * delta_hours

/-- The body of the fan-out loop over one heading index h (lines 124-231).
current is the frontier state being expanded (stored at arena index idx);
env_src and bearing_to_goal are computed once per frontier state, as in the
source. -/
def expandHeading (C : Ctx) (delta_hours : ℚ) (idx : ℕ) (current : State)
    (env_src : EnvironmentSample) (bearing_to_goal : ℚ) (h : ℕ) (A : Acc) : Acc :=
  let heading := C.bearingIncrement * (h : ℚ)
  if headingDifference bearing_to_goal heading > (C.settings).bearing_window_deg then A
  else if current.heading_deg.isSome ∧
      headingDifference (current.heading_deg.getD 0) heading
        > C.request.ship.max_heading_change_deg then A
  else
    let distance_nm := legDistance C env_src heading delta_hours
    if distance_nm < 1/20 then A
    else if intersectsLandOrShallow C current heading distance_nm delta_hours then A
    else if C.use_corridor ∧
        ¬ corridorContains C.prims C.corridor
            (advancePosition C.prims current.position heading distance_nm) then A
    else
      let candidate_position := advancePosition C.prims current.position heading distance_nm
      let env_dst := C.sampler candidate_position.lat candidate_position.lon
        (current.time_hours + delta_hours)
      if env_dst.depth_m + EPS < C.minDepth then A
      else
        mergeAndRecord C A (mkCandidate C idx current heading distance_nm delta_hours env_src env_dst)

/-- One frontier state: read it, sample its environment and goal bearing
once, then fan out over all headings (lines 119-233). -/
def expandState (C : Ctx) (delta_hours : ℚ) (A : Acc) (idx : ℕ) : Acc :=
  let current := stateAt A.states idx
  let env_src := C.sampler current.position.lat current.position.lon current.time_hours
  let bearing_to_goal := greatCircleBearing C.prims current.position C.request.goal
  (List.range (C.settings).heading_count.toNat).foldl
    (fun Acur h => expandHeading C delta_hours idx current env_src bearing_to_goal h Acur) A

/-- The loop-carried locals of the main while loop. -/
structure LoopSt where
  states : List State
  frontier : List ℕ
  closest_index : ℕ
  closest_distance : ℚ
  best_goal_index : ℤ
  best_goal_arrival : ℚ
  goal_reached : Bool
  step_count : ℤ
  last_frontier_size : ℤ
  current_time_step_minutes : ℚ
  delta_hours : ℚ

/-- The adaptive time-step update of lines 102-113 (only for steps after the
first, and only when adaptive sampling is enabled). -/
def adaptiveTimeStep (C : Ctx) (L : LoopSt) : ℚ × ℚ :=
  if (C.settings).enable_adaptive_sampling ∧ L.step_count > 1 then
    let total_complexity := L.frontier.foldl (fun acc idx =>
      let state := stateAt L.states idx
      let env := C.sampler state.position.lat state.position.lon state.time_hours
      acc + calculateComplexity state env (C.settings)) 0
    let avg_complexity := if L.frontier.isEmpty then 0
      else total_complexity / (L.frontier.length : ℚ)
    let factor := clamp ((avg_complexity - 3/10) / ((C.settings).complexity_threshold - 3/10)) 0 1
    let ts := (C.settings).max_time_step_minutes -
      factor * ((C.settings).max_time_step_minutes - (C.settings).min_time_step_minutes)
    (ts, ts / 60)
  else (L.current_time_step_minutes, L.delta_hours)

/-- Heuristic cost used by the beam-prune sort (lines 238-244). -/
def beamCost (C : Ctx) (states : List State) (i : ℕ) : ℚ :=
  (stateAt states i).cumulative_distance_nm +
    greatCircleDistance C.prims (stateAt states i).position C.request.goal

/-- End-of-layer beam pruning (lines 235-247); returns the surviving next
frontier and the recorded last_frontier_size. -/
def beamPrune (C : Ctx) (states : List State) (next_frontier : List ℕ) : List ℕ × ℤ :=
  if (C.settings).beam_width > 0 ∧ (next_frontier.length : ℤ) > (C.settings).beam_width then
    ((sortBy (fun a b => decide (beamCost C states a ≤ beamCost C states b)) next_frontier).take
        (C.settings).beam_width.toNat,
      (C.settings).beam_width)
  else (next_frontier, (next_frontier.length : ℤ))

/-- One full layer of the main loop (lines 102-247): adaptive step update,
fan-out over the frontier, beam pruning.  Returns the updated loop state
(frontier not yet swapped), the emitted next frontier, and the
reached_this_layer flag. -/
def expandLayer (C : Ctx) (L : LoopSt) : LoopSt × List ℕ × Bool :=
  let td := adaptiveTimeStep C L
  let A0 : Acc := { states := L.states, next_frontier := [],
                    closest_index := L.closest_index, closest_distance := L.closest_distance,
                    best_goal_index := L.best_goal_index, best_goal_arrival := L.best_goal_arrival,
                    goal_reached := L.goal_reached, reached_this_layer := false }
  let A := L.frontier.foldl (expandState C td.2) A0
  let pr := beamPrune C A.states A.next_frontier
  ({ L with states := A.states,
            closest_index := A.closest_index, closest_distance := A.closest_distance,
            best_goal_index := A.best_goal_index, best_goal_arrival := A.best_goal_arrival,
            goal_reached := A.goal_reached,
            last_frontier_size := pr.2,
            current_time_step_minutes := td.1, delta_hours := td.2 },
    pr.1, A.reached_this_layer)

/-- The main while loop (lines 99-251).  The fuel only bounds the number of
iterations; the loop exits through the same guard as the source (frontier
empty or step_count reaching max_steps) or through the goal break, and
solveInternal supplies fuel maxSteps+1, one more than the guard permits, so
the fuel never runs out before the guard. -/
def loopGo (C : Ctx) : ℕ → LoopSt → LoopSt
  | 0, L => L
  | fuel + 1, L =>
    if L.frontier.isEmpty ∨ ¬ (L.step_count < C.maxSteps) then L
    else
      let R := expandLayer C { L with step_count := L.step_count + 1 }
      if R.2.2 then R.1
      else loopGo C fuel { R.1 with frontier := R.2.1 }

/-- Pre-loop initialization (lines 76-97). -/
def initLoop (C : Ctx) : LoopSt :=
  { states := [{ position := C.request.start,
                 time_hours := C.request.departure_time_hours,
                 heading_deg := none }],
    frontier := [0],
    closest_index := 0,
    closest_distance := greatCircleDistance C.prims C.request.start C.request.goal,
    best_goal_index := -1,
    best_goal_arrival := DBL_MAX,
    goal_reached := false,
    step_count := 0,
    last_frontier_size := 1,
    current_time_step_minutes := (C.settings).time_step_minutes,
    delta_hours := (C.settings).time_step_minutes / 60 }

/-- The finished main loop of one solveInternal invocation. -/
def mainLoop (C : Ctx) : LoopSt :=
  loopGo C (C.maxSteps.toNat + 1) (initLoop C)

/-- The backtracking walk of lines 257-262, accumulating indices from the
terminal back to the root.  The fuel stands in for the termination of the
source while loop, which relies on parent indices strictly decreasing (an
invariant proved below); the chain can therefore visit at most
states.length distinct indices. -/
def backtrackGo (states : List State) : ℕ → ℤ → List ℕ → List ℕ
  | 0, _, acc => acc
  | fuel + 1, cursor, acc =>
    if cursor ≥ 0 then
      backtrackGo states fuel (stateAt states cursor.toNat).parent_index (acc ++ [cursor.toNat])
    else acc

/-- Backtracked index path, root first (lines 257-263). -/
def backtrack (states : List State) (final_index : ℤ) : List ℕ :=
  (backtrackGo states (states.length + 1) final_index []).reverse

/-- The waypoint record written for one backtracked state (line 273). -/
def stateWaypoint (s : State) : Waypoint :=
  { lat := s.position.lat, lon := s.position.lon, time_hours := s.time_hours,
    heading_deg := s.heading_deg, is_course_change := false,
    max_wave_height_m := s.max_wave_height_m, hazard_flags := s.hazard_flags }

/-- The terminal index selection of line 254. -/
def finalIndexOf (L : LoopSt) : ℤ :=
  if L.best_goal_index ≠ -1 then L.best_goal_index else (L.closest_index : ℤ)

/-- IsochroneRouter::solveInternal (lines 61-304). -/
def solveInternal (P : Prims) (request : Request) (sampler : EnvironmentSampler)
    (corridor : Corridor) (use_corridor : Bool) : Result :=
  let C : Ctx := ⟨P, request, sampler, corridor, use_corridor⟩
  let L := mainLoop C
  if L.states.isEmpty then {}
  else
    let final_index := finalIndexOf L
    let final_state := stateAt L.states final_index.toNat
    let bt := backtrack L.states final_index
    let preserve_indices : List ℤ := if bt.isEmpty then [] else [0, (bt.length : ℤ) - 1]
    let raw := bt.map (fun i => stateWaypoint (stateAt L.states i))
    let simplified := simplifyStep P request.settings.simplify_tolerance_nm raw preserve_indices
    { waypoints := simplified.1,
      waypoints_raw := raw,
      index_map := simplified.2,
      diagnostics := { total_distance_nm := final_state.cumulative_distance_nm,
                       eta_hours := final_state.time_hours,
                       step_count := L.step_count,
                       frontier_size := L.last_frontier_size,
                       reached_goal := L.goal_reached,
                       final_distance_to_goal_nm :=
                         greatCircleDistance P final_state.position request.goal },
      is_coarse_route := false }

/-! ### The hierarchical dispatcher (IsochroneRouter::solve, lines 26-58) -/

/-- The coarse-pass setting overrides of lines 32-37. -/
def coarseOverrides (s : Settings) : Settings :=
  { s with time_step_minutes := 90, heading_count := 12, merge_radius_nm := 40,
           beam_width := 300, simplify_tolerance_nm := 50,
           enable_adaptive_sampling := false }

/-- IsochroneRouter::solve. -/
def solve (P : Prims) (request : Request) (sampler : EnvironmentSampler) : Result :=
  let distance_nm := greatCircleDistance P request.start request.goal
  if request.settings.enable_hierarchical_routing ∧
      distance_nm > request.settings.long_route_threshold_nm then
    let coarse_request := { request with settings := coarseOverrides request.settings }
    let coarse_result0 := solveInternal P coarse_request sampler {} false
    let coarse_result := { coarse_result0 with is_coarse_route := true }
    if coarse_result.waypoints.isEmpty ∨ coarse_result.waypoints.length < 2 then
      solveInternal P request sampler {} false
    else
      let corridor : Corridor :=
        { width_nm := request.settings.corridor_width_nm,
          centerline := coarse_result.waypoints.map (fun wp => toGeoPoint wp) }
      solveInternal P request sampler corridor true
  else
    solveInternal P request sampler {} false

/-! ## Supporting lemmas: sorting, unique, ranges -/

theorem sortInsert_perm {α : Type} (le : α → α → Bool) (x : α) (l : List α) :
    (sortInsert le x l).Perm (x :: l) := by
  induction l with
  | nil => exact List.Perm.refl _
  | cons y ys ih =>
    simp only [sortInsert]
    split
    · exact List.Perm.refl _
    · exact (ih.cons y).trans (List.Perm.swap x y ys)

theorem sortBy_perm {α : Type} (le : α → α → Bool) (l : List α) :
    (sortBy le l).Perm l := by
  induction l with
  | nil => exact List.Perm.refl _
  | cons x xs ih => exact (sortInsert_perm le x (sortBy le xs)).trans (ih.cons x)

theorem sortBy_eq_self {α : Type} {le : α → α → Bool} {l : List α}
    (h : l.Pairwise (fun a b => le a b = true)) : sortBy le l = l := by
  induction l with
  | nil => rfl
  | cons x xs ih =>
    have hx : ∀ b ∈ xs, le x b = true := fun b hb => List.rel_of_pairwise_cons h hb
    have htail : xs.Pairwise (fun a b => le a b = true) := h.tail
    simp only [sortBy, ih htail]
    cases xs with
    | nil => rfl
    | cons y ys =>
      simp only [sortInsert]
      rw [if_pos (hx y (List.mem_cons_self y ys))]

theorem cppUniqueFrom_eq_self {prev : ℤ} {l : List ℤ}
    (h : List.Chain' (· < ·) (prev :: l)) : cppUniqueFrom prev l = l := by
  induction l generalizing prev with
  | nil => rfl
  | cons y ys ih =>
    have hlt : prev < y := List.rel_of_chain_cons h
    have htail : List.Chain' (· < ·) (y :: ys) := (List.chain'_cons'.mp h).2
    simp only [cppUniqueFrom]
    rw [if_neg (by omega), ih htail]

theorem cppUnique_eq_self {l : List ℤ} (h : List.Chain' (· < ·) l) : cppUnique l = l := by
  cases l with
  | nil => rfl
  | cons x xs => simp only [cppUnique, cppUniqueFrom_eq_self h]

theorem mem_intRange {lo hi i : ℤ} : i ∈ intRange lo hi ↔ lo ≤ i ∧ i < hi := by
  simp only [intRange, List.mem_map, List.mem_range]
  constructor
  · rintro ⟨k, hk, rfl⟩
    omega
  · rintro ⟨h1, h2⟩
    exact ⟨(i - lo).toNat, by omega, by omega⟩

/-! ## Supporting lemmas: the argmax fold of the simplifier -/

theorem dpMaxFold_acc_le (f : ℤ → ℚ) (l : List ℤ) (acc : ℚ × ℤ) :
    acc.1 ≤ (l.foldl (fun md i => if f i > md.1 then (f i, i) else md) acc).1 := by
  induction l generalizing acc with
  | nil => exact le_refl _
  | cons i l ih =>
    refine le_trans ?step (ih _)
    by_cases hfi : f i > acc.1
    · simp only [List.foldl]; rw [if_pos hfi]; exact le_of_lt hfi
    · simp only [List.foldl]; rw [if_neg hfi]

theorem dpMaxFold_mem_le (f : ℤ → ℚ) (l : List ℤ) :
    ∀ (acc : ℚ × ℤ) (i : ℤ), i ∈ l →
      f i ≤ (l.foldl (fun md i => if f i > md.1 then (f i, i) else md) acc).1 := by
  induction l with
  | nil => intro acc i hi; cases hi
  | cons j l ih =>
    intro acc i hi
    rcases List.mem_cons.mp hi with rfl | hmem
    · refine le_trans ?hd (dpMaxFold_acc_le f l _)
      by_cases hfi : f i > acc.1
      · simp only [List.foldl]; rw [if_pos hfi]
      · simp only [List.foldl]; rw [if_neg hfi]; exact le_of_not_lt hfi
    · simp only [List.foldl]
      exact ih _ i hmem

theorem dpMaxFold_cases (f : ℤ → ℚ) (l : List ℤ) :
    ∀ acc : ℚ × ℤ,
    (l.foldl (fun md i => if f i > md.1 then (f i, i) else md) acc) = acc ∨
    ((l.foldl (fun md i => if f i > md.1 then (f i, i) else md) acc).2 ∈ l ∧
      (l.foldl (fun md i => if f i > md.1 then (f i, i) else md) acc).1 =
        f (l.foldl (fun md i => if f i > md.1 then (f i, i) else md) acc).2) := by
  induction l with
  | nil => exact fun acc => Or.inl rfl
  | cons j l ih =>
    intro acc
    simp only [List.foldl]
    by_cases hfj : f j > acc.1
    · rw [if_pos hfj]
      rcases ih (f j, j) with heq | ⟨hmem, hval⟩
      · exact Or.inr ⟨by rw [heq]; exact List.mem_cons_self j l, by rw [heq]⟩
      · exact Or.inr ⟨List.mem_cons_of_mem j hmem, hval⟩
    · rw [if_neg hfj]
      rcases ih acc with heq | ⟨hmem, hval⟩
      · exact Or.inl heq
      · exact Or.inr ⟨List.mem_cons_of_mem j hmem, hval⟩

theorem dpMaxOf_fst_nonneg (P : Prims) (pts : List Waypoint) (a b : ℤ) :
    0 ≤ (dpMaxOf P pts a b).1 :=
  dpMaxFold_acc_le (dpDist P pts a b) (intRange (a + 1) b) (0, -1)

theorem dpMaxOf_pos_interior (P : Prims) (pts : List Waypoint) (a b : ℤ)
    (h : 0 < (dpMaxOf P pts a b).1) :
    a < (dpMaxOf P pts a b).2 ∧ (dpMaxOf P pts a b).2 < b := by
  have hd : dpMaxOf P pts a b = (intRange (a + 1) b).foldl
      (fun md i => if dpDist P pts a b i > md.1 then (dpDist P pts a b i, i) else md)
      (0, -1) := rfl
  rw [hd] at h ⊢
  rcases dpMaxFold_cases (dpDist P pts a b) (intRange (a + 1) b) (0, -1) with heq | ⟨hmem, _⟩
  · rw [heq] at h
    exact absurd h (by norm_num)
  · have := mem_intRange.mp hmem
    omega

theorem dpMaxOf_ge (P : Prims) (pts : List Waypoint) (a b m : ℤ)
    (h1 : a < m) (h2 : m < b) : dpDist P pts a b m ≤ (dpMaxOf P pts a b).1 :=
  dpMaxFold_mem_le (dpDist P pts a b) (intRange (a + 1) b) (0, -1) m
    (mem_intRange.mpr ⟨by omega, h2⟩)

/-! ## The Douglas-Peucker recursion invariant -/

/-- Every interior index of the chord (a, b) lies within tolerance of it. -/
def SegOK (P : Prims) (pts : List Waypoint) (tol : ℚ) (a b : ℤ) : Prop :=
  ∀ m : ℤ, a < m → m < b → dpDist P pts a b m ≤ tol

/-- Core invariant of dpSimplifyRecursive: flanked by its endpoints, the
returned index list is strictly increasing, and every adjacent pair of
retained indices bounds all its interior points within tolerance. -/
theorem dp_chain (P : Prims) (pts : List Waypoint) (tol : ℚ) (pres : List ℤ)
    (htol : 0 ≤ tol) :
    ∀ n : ℕ, ∀ s e : ℤ, (e - s).toNat ≤ n → s < e →
      List.Chain' (fun a b => a < b ∧ SegOK P pts tol a b)
        (s :: dpSimplifyRecursive P pts tol s e pres ++ [e]) := by
  intro n
  induction n with
  | zero => intro s e hn hse; omega
  | succ n ih =>
    intro s e hn hse
    rw [dpSimplifyRecursive]
    rw [if_neg (by omega)]
    by_cases hgt : (dpMaxOf P pts s e).1 > tol
    · have hpos : 0 < (dpMaxOf P pts s e).1 := lt_of_le_of_lt htol hgt
      have hint := dpMaxOf_pos_interior P pts s e hpos
      rw [if_pos hgt, dif_pos hint]
      have ihl := ih s (dpMaxOf P pts s e).2 (by omega) hint.1
      have ihr := ih (dpMaxOf P pts s e).2 e (by omega) hint.2
      have hassoc :
          s :: (dpSimplifyRecursive P pts tol s (dpMaxOf P pts s e).2 pres
              ++ (dpMaxOf P pts s e).2 ::
                dpSimplifyRecursive P pts tol (dpMaxOf P pts s e).2 e pres) ++ [e]
            = (s :: dpSimplifyRecursive P pts tol s (dpMaxOf P pts s e).2 pres
                ++ [(dpMaxOf P pts s e).2])
              ++ (dpSimplifyRecursive P pts tol (dpMaxOf P pts s e).2 e pres ++ [e]) := by
        simp
      rw [hassoc]
      refine List.Chain'.append ihl ihr.tail ?seam
      intro x hx y hy
      have hxlast : x = (dpMaxOf P pts s e).2 := by
        have : (s :: dpSimplifyRecursive P pts tol s (dpMaxOf P pts s e).2 pres
            ++ [(dpMaxOf P pts s e).2]).getLast? = some (dpMaxOf P pts s e).2 := by
          rw [List.getLast?_append]
          rfl
        rw [this] at hx
        exact (Option.mem_some_iff.mp hx).symm
      subst hxlast
      have := List.chain'_cons'.mp ihr
      exact this.1 y hy
    · rw [if_neg hgt]
      refine List.chain'_cons.mpr ⟨⟨hse, ?seg⟩, List.chain'_singleton e⟩
      intro m hm1 hm2
      exact le_trans (dpMaxOf_ge P pts s e m hm1 hm2) (le_of_not_lt hgt)

/-- The chain invariant instantiated at the full range of the wrapper. -/
theorem dp_chain_full (P : Prims) (raw : List Waypoint) (tol : ℚ) (pres : List ℤ)
    (htol : 0 < tol) (hlen : 2 < raw.length) :
    List.Chain' (fun a b => a < b ∧ SegOK P raw tol a b)
      (0 :: dpSimplifyRecursive P raw tol 0 ((raw.length : ℤ) - 1) pres
        ++ [(raw.length : ℤ) - 1]) :=
  dp_chain P raw tol pres (le_of_lt htol) ((raw.length : ℤ) - 1).toNat 0
    ((raw.length : ℤ) - 1) (by omega) (by omega)

/-- For positive tolerance and more than two raw points, the sort and the
duplicate removal of the wrapper are no-ops: the recursion already yields
the indices in strictly increasing order between the two endpoints. -/
theorem simplifyIndices_eq (P : Prims) (raw : List Waypoint) (tol : ℚ) (pres : List ℤ)
    (htol : 0 < tol) (hlen : 2 < raw.length) :
    simplifyIndices P raw tol pres =
      0 :: dpSimplifyRecursive P raw tol 0 ((raw.length : ℤ) - 1) pres
        ++ [(raw.length : ℤ) - 1] := by
  have hchain := dp_chain_full P raw tol pres htol hlen
  have hlt : List.Chain' (· < ·)
      (0 :: dpSimplifyRecursive P raw tol 0 ((raw.length : ℤ) - 1) pres
        ++ [(raw.length : ℤ) - 1]) :=
    hchain.imp (fun _ _ h => h.1)
  have hpw : List.Pairwise (· < ·)
      (0 :: dpSimplifyRecursive P raw tol 0 ((raw.length : ℤ) - 1) pres
        ++ [(raw.length : ℤ) - 1]) :=
    (List.chain'_iff_pairwise.mp hlt)
  have hle : List.Pairwise (fun a b : ℤ => (decide (a ≤ b)) = true)
      (0 :: dpSimplifyRecursive P raw tol 0 ((raw.length : ℤ) - 1) pres
        ++ [(raw.length : ℤ) - 1]) :=
    hpw.imp (fun h => decide_eq_true (le_of_lt h))
  show cppUnique (sortBy (fun a b => decide (a ≤ b)) _) = _
  rw [show ([0] ++ dpSimplifyRecursive P raw tol 0 ((raw.length : ℤ) - 1) pres
        ++ [(raw.length : ℤ) - 1])
      = (0 :: dpSimplifyRecursive P raw tol 0 ((raw.length : ℤ) - 1) pres
        ++ [(raw.length : ℤ) - 1]) from rfl]
  rw [sortBy_eq_self hle]
  exact cppUnique_eq_self hlt

/-- C6 (amended): the simplifier output always retains indices 0 and N-1,
is strictly sorted (hence de-duplicated), has index_map starting at 0 and
ending at N-1, and degenerates to the identity copy when the tolerance is
nonpositive or there are at most two raw waypoints.  (The preserve set
beyond the two endpoints is not honored: dpSimplifyRecursive never reads
it, see the counterexample.) -/
theorem simplifier_endpoints_sorted (P : Prims) (raw : List Waypoint) (tol : ℚ)
    (pres : List ℤ) :
    if 0 < tol ∧ 2 < raw.length then
      (0 : ℤ) ∈ simplifyIndices P raw tol pres ∧
      ((raw.length : ℤ) - 1) ∈ simplifyIndices P raw tol pres ∧
      List.Chain' (· < ·) (simplifyIndices P raw tol pres) ∧
      (simplifyIndices P raw tol pres).Nodup ∧
      (simplifyIndices P raw tol pres).head? = some 0 ∧
      (simplifyIndices P raw tol pres).getLast? = some ((raw.length : ℤ) - 1) ∧
      simplifyStep P tol raw pres =
        ((simplifyIndices P raw tol pres).map (wpAt raw), simplifyIndices P raw tol pres)
    else
      simplifyStep P tol raw pres = (raw, (List.range raw.length).map (fun i : ℕ => (i : ℤ))) := by
  by_cases hc : 0 < tol ∧ 2 < raw.length
  · rw [if_pos hc]
    obtain ⟨htol, hlen⟩ := hc
    have heq := simplifyIndices_eq P raw tol pres htol hlen
    have hchain := dp_chain_full P raw tol pres htol hlen
    have hlt : List.Chain' (· < ·) (simplifyIndices P raw tol pres) := by
      rw [heq]; exact hchain.imp (fun _ _ h => h.1)
    refine ⟨?mem0, ?memN, hlt, ?nodup, ?hd, ?last, ?step⟩
    case mem0 => rw [heq]; exact List.mem_cons_self _ _
    case memN =>
      rw [heq]
      exact List.mem_cons_of_mem _ (List.mem_append_right _ (List.mem_singleton.mpr rfl))
    case nodup =>
      exact (List.chain'_iff_pairwise.mp hlt).imp (fun h => ne_of_lt h)
    case hd => rw [heq]; rfl
    case last =>
      rw [heq, List.getLast?_append]
      rfl
    case step =>
      simp only [simplifyStep]
      rw [if_pos ⟨htol, hlen⟩]
  · rw [if_neg hc]
    simp only [simplifyStep]
    rw [if_neg hc]

/-- C7: for every simplified output (positive tolerance, more than two raw
waypoints), every pair of consecutive retained indices and every raw index
strictly between them, the cross-track distance of the interior waypoint to
the chord of the two retained waypoints is at most the tolerance. -/
theorem dp_tolerance_consecutive (P : Prims) (raw : List Waypoint) (tol : ℚ)
    (pres : List ℤ) (htol : 0 < tol) (hlen : 2 < raw.length) :
    ∀ (k : ℕ) (hk : k + 1 < (simplifyIndices P raw tol pres).length),
      ∀ m : ℤ, (simplifyIndices P raw tol pres).get ⟨k, by omega⟩ < m →
        m < (simplifyIndices P raw tol pres).get ⟨k + 1, hk⟩ →
        dpDist P raw ((simplifyIndices P raw tol pres).get ⟨k, by omega⟩)
          ((simplifyIndices P raw tol pres).get ⟨k + 1, hk⟩) m ≤ tol := by
  intro k hk m h1 h2
  have hchain : List.Chain' (fun a b => a < b ∧ SegOK P raw tol a b)
      (simplifyIndices P raw tol pres) := by
    rw [simplifyIndices_eq P raw tol pres htol hlen]
    exact dp_chain_full P raw tol pres htol hlen
  have hget := List.chain'_iff_get.mp hchain k (by omega)
  exact hget.2 m h1 h2

/-! ## Settings clamping (claim C8) -/

theorem clamp_mem {v lo hi : ℚ} (h : lo ≤ hi) :
    lo ≤ clamp v lo hi ∧ clamp v lo hi ≤ hi := by
  unfold clamp
  split_ifs <;> constructor <;> linarith

theorem cppTrunc_bounds {q : ℚ} {lo hi : ℤ} (h0 : (0 : ℚ) ≤ (lo : ℚ))
    (h1 : (lo : ℚ) ≤ q) (h2 : q ≤ (hi : ℚ)) :
    lo ≤ cppTrunc q ∧ cppTrunc q ≤ hi := by
  unfold cppTrunc
  rw [if_neg (by linarith)]
  constructor
  · exact le_ratFloor_of_le h1
  · have hle : (ratFloor q : ℚ) ≤ (hi : ℚ) := le_trans (ratFloor_le q) h2
    exact_mod_cast hle

/-- C8 (amended): on entry solveInternal clamps exactly five settings --
time_step_minutes to [15, 120], heading_count to [8, 72], merge_radius_nm
to [5, 40], goal_radius_nm to [10, 60], max_hours to [12, 720] with the
default 240 substituted when nonpositive -- while the adaptive-stepping
fields min_time_step_minutes, max_time_step_minutes and
complexity_threshold pass through unclamped (see the counterexample). -/
theorem clampSettings_ranges (s : Settings) :
    (15 ≤ (clampSettings s).time_step_minutes ∧ (clampSettings s).time_step_minutes ≤ 120) ∧
    (8 ≤ (clampSettings s).heading_count ∧ (clampSettings s).heading_count ≤ 72) ∧
    (5 ≤ (clampSettings s).merge_radius_nm ∧ (clampSettings s).merge_radius_nm ≤ 40) ∧
    (10 ≤ (clampSettings s).goal_radius_nm ∧ (clampSettings s).goal_radius_nm ≤ 60) ∧
    (12 ≤ (clampSettings s).max_hours ∧ (clampSettings s).max_hours ≤ 720) ∧
    (s.max_hours ≤ 0 → (clampSettings s).max_hours = 240) ∧
    (clampSettings s).min_time_step_minutes = s.min_time_step_minutes ∧
    (clampSettings s).max_time_step_minutes = s.max_time_step_minutes ∧
    (clampSettings s).complexity_threshold = s.complexity_threshold := by
  have hhc := @clamp_mem (s.heading_count : ℚ) 8 72 (by norm_num)
  refine ⟨clamp_mem (by norm_num), ?hc, clamp_mem (by norm_num), clamp_mem (by norm_num),
    clamp_mem (by norm_num), ?default, rfl, rfl, rfl⟩
  case hc =>
    exact cppTrunc_bounds (by norm_num) (by exact_mod_cast hhc.1) (by exact_mod_cast hhc.2)
  case default =>
    intro hneg
    show clamp (if s.max_hours ≤ 0 then 240 else s.max_hours) 12 720 = 240
    rw [if_pos hneg]
    unfold clamp
    norm_num

/-! ## The dispatcher as described by the spec (claims C3, C10) -/

/-- Refinement counterpart of solve, written from the wording of the spec:
if hierarchical routing is enabled and the great-circle distance exceeds
long_route_threshold_nm, run a coarse pass with the six listed overrides
and mark it is_coarse_route; if the coarse pass yields fewer than two
waypoints fall back to one standard pass; otherwise run a fine pass with
the original settings inside a corridor whose centerline is the coarse
simplified waypoint polyline and whose width is corridor_width_nm; without
the hierarchical trigger run a single standard pass. -/
def solveDispatchSpec (P : Prims) (request : Request) (sampler : EnvironmentSampler) : Result :=
  if request.settings.enable_hierarchical_routing ∧
      greatCircleDistance P request.start request.goal
        > request.settings.long_route_threshold_nm then
    let coarse_result :=
      { solveInternal P
          { request with settings :=
            { request.settings with
              time_step_minutes := 90, heading_count := 12, merge_radius_nm := 40,
              beam_width := 300, simplify_tolerance_nm := 50,
              enable_adaptive_sampling := false } }
          sampler {} false
        with is_coarse_route := true }
    if coarse_result.waypoints.length < 2 then
      solveInternal P request sampler {} false
    else
      solveInternal P request sampler
        { centerline := coarse_result.waypoints.map toGeoPoint,
          width_nm := request.settings.corridor_width_nm } true
  else
    solveInternal P request sampler {} false

/-- C3: the hierarchical dispatcher behaves exactly as the spec describes:
coarse pass with the six overrides when triggered, fallback on fewer than
two coarse waypoints, otherwise a corridor-gated fine pass, and a single
standard pass for short routes or when the feature is disabled. -/
theorem solve_eq_dispatchSpec (P : Prims) (request : Request)
    (sampler : EnvironmentSampler) :
    solve P request sampler = solveDispatchSpec P request sampler := by
  unfold solve solveDispatchSpec coarseOverrides
  by_cases h1 : request.settings.enable_hierarchical_routing ∧
      greatCircleDistance P request.start request.goal
        > request.settings.long_route_threshold_nm
  · rw [if_pos h1, if_pos h1]
    simp only []
    by_cases h2 : ({ solveInternal P
          { request with settings :=
            { request.settings with
              time_step_minutes := 90, heading_count := 12, merge_radius_nm := 40,
              beam_width := 300, simplify_tolerance_nm := 50,
              enable_adaptive_sampling := false } }
          sampler {} false
        with is_coarse_route := true } : Result).waypoints.length < 2
    · rw [if_pos (Or.inr h2), if_pos h2]
    · rw [if_neg ?negcond, if_neg h2]
      case negcond =>
        rintro (hemp | hlen)
        · rw [List.isEmpty_iff] at hemp
          exact h2 (by rw [hemp]; norm_num)
        · exact h2 hlen
  · rw [if_neg h1, if_neg h1]

theorem solveInternal_is_coarse_false (P : Prims) (request : Request)
    (sampler : EnvironmentSampler) (corridor : Corridor) (use_corridor : Bool) :
    (solveInternal P request sampler corridor use_corridor).is_coarse_route = false := by
  simp only [solveInternal]
  split <;> rfl

/-- C10: the Result solve hands back always has is_coarse_route = false;
the internally marked coarse result only ever feeds the corridor of the
fine pass. -/
theorem solve_is_coarse_false (P : Prims) (request : Request)
    (sampler : EnvironmentSampler) :
    (solve P request sampler).is_coarse_route = false := by
  simp only [solve]
  split
  · split
    · exact solveInternal_is_coarse_false P request sampler {} false
    · exact solveInternal_is_coarse_false P request sampler _ true
  · exact solveInternal_is_coarse_false P request sampler {} false

/-! ## Structural lemmas about one fan-out step -/

/-- The analytic fact about std::sqrt the engine proofs need: nonnegative
output on nonnegative input.  It holds for the actual library function. -/
def PrimsOK (P : Prims) : Prop := ∀ x : ℚ, 0 ≤ x → 0 ≤ P.sqrt x

theorem recordGoal_states (C : Ctx) (A : Acc) (i : ℕ) :
    (recordGoal C A i).states = A.states := by
  simp only [recordGoal]
  split_ifs <;> rfl

theorem recordGoal_next_frontier (C : Ctx) (A : Acc) (i : ℕ) :
    (recordGoal C A i).next_frontier = A.next_frontier := by
  simp only [recordGoal]
  split_ifs <;> rfl

theorem recordGoal_closest (C : Ctx) (A : Acc) (i : ℕ) :
    (recordGoal C A i).closest_index = A.closest_index ∨
    (recordGoal C A i).closest_index = i := by
  simp only [recordGoal]
  split_ifs <;> simp

theorem recordGoal_gflag (C : Ctx) (A : Acc) (i : ℕ)
    (h : A.goal_reached = (A.best_goal_index ≠ -1)) :
    (recordGoal C A i).goal_reached = ((recordGoal C A i).best_goal_index ≠ -1) := by
  simp only [recordGoal]
  split_ifs <;> simp [h]

/-- The merge scan either drops the candidate (a first match exists and the
candidate cannot strictly improve on its equal arrival time) or appends it;
the in-place replacement of line 211 is unreachable whenever every state
already queued this layer carries the same arrival time as the candidate,
because the test at line 200 demands a strictly earlier time. -/
theorem mergeAndRecord_cases (C : Ctx) (A : Acc) (cand : State)
    (hnf : ∀ j ∈ A.next_frontier, (stateAt A.states j).time_hours = cand.time_hours) :
    ((mergeFind C A.states A.next_frontier cand).isSome ∧ mergeAndRecord C A cand = A) ∨
    (mergeFind C A.states A.next_frontier cand = none ∧
      mergeAndRecord C A cand =
        recordGoal C { A with states := A.states ++ [cand],
                              next_frontier := A.next_frontier ++ [A.states.length] }
          A.states.length) := by
  unfold mergeAndRecord
  cases hfind : mergeFind C A.states A.next_frontier cand with
  | some e =>
    left
    have he : e ∈ A.next_frontier := List.mem_of_find?_eq_some hfind
    have hte := hnf e he
    refine ⟨rfl, ?drop⟩
    case drop =>
      dsimp only
      rw [if_neg ?cmp]
      case cmp =>
        rw [hte]
        unfold EPS
        intro hlt
        linarith
  | none => exact Or.inr ⟨rfl, rfl⟩

/-- A leg of at least 0.05 nm with nonnegative speed forces a positive time
step: the source of the strict time increase along parent links. -/
theorem pos_delta {g m d : ℚ} (hg : 0 ≤ g) (hd : 1/20 ≤ max g m * d) : 0 < d := by
  have h0 : 0 ≤ max g m := le_trans hg (le_max_left g m)
  by_contra hle
  push_neg at hle
  nlinarith

/-- Shape of one heading expansion: either the candidate is gated out and
the accumulator is untouched, or a candidate with the stated arrival time,
parent, distance and wave monotonicity is handed to the merge step. -/
theorem expandHeading_shape (C : Ctx) (δ : ℚ) (idx : ℕ) (current : State)
    (env_src : EnvironmentSample) (btg : ℚ) (h : ℕ) (A : Acc) :
    expandHeading C δ idx current env_src btg h A = A ∨
    ∃ cand : State,
      cand.time_hours = current.time_hours + δ ∧
      cand.parent_index = (idx : ℤ) ∧
      current.cumulative_distance_nm + 1/20 ≤ cand.cumulative_distance_nm ∧
      current.max_wave_height_m ≤ cand.max_wave_height_m ∧
      (PrimsOK C.prims → current.time_hours < cand.time_hours) ∧
      expandHeading C δ idx current env_src btg h A = mergeAndRecord C A cand := by
  simp only [expandHeading]
  split_ifs with h1 h2 h3 h4 h5 h6
  · exact Or.inl rfl
  · exact Or.inl rfl
  · exact Or.inl rfl
  · exact Or.inl rfl
  · exact Or.inl rfl
  · exact Or.inl rfl
  · right
    refine ⟨_, rfl, rfl, ?cum, ?wave, ?time, rfl⟩
    case cum =>
      show current.cumulative_distance_nm + 1/20 ≤
        current.cumulative_distance_nm + legDistance C env_src (C.bearingIncrement * (h : ℚ)) δ
      have := le_of_not_lt h3
      linarith
    case wave =>
      show current.max_wave_height_m ≤ max (max current.max_wave_height_m _) _
      exact le_trans (le_max_left _ _) (le_max_left _ _)
    case time =>
      intro hP
      show current.time_hours < current.time_hours + δ
      have hd : (1 : ℚ)/20 ≤ legDistance C env_src (C.bearingIncrement * (h : ℚ)) δ :=
        le_of_not_lt h3
      simp only [legDistance, safeHypot] at hd
      have hpos : 0 < δ :=
        pos_delta (hP _ (add_nonneg (mul_self_nonneg _) (mul_self_nonneg _))) hd
      linarith

/-! ## Arena indexing is stable under append -/

theorem stateAt_append_left {l l2 : List State} {j : ℕ} (h : j < l.length) :
    stateAt (l ++ l2) j = stateAt l j := by
  unfold stateAt
  rw [List.getD_eq_getElem?_getD, List.getD_eq_getElem?_getD, List.getElem?_append, if_pos h]

theorem stateAt_append_self (l : List State) (x : State) :
    stateAt (l ++ [x]) l.length = x := by
  unfold stateAt
  rw [List.getD_eq_getElem?_getD, List.getElem?_append_right (le_refl _)]
  simp

theorem stateAt_prefix {l1 l2 : List State} {j : ℕ} (hp : l1 <+: l2) (h : j < l1.length) :
    stateAt l2 j = stateAt l1 j := by
  obtain ⟨t, rfl⟩ := hp
  exact stateAt_append_left h

/-! ## The state arena only grows -/

theorem mergeAndRecord_len (C : Ctx) (A : Acc) (cand : State) :
    A.states.length ≤ (mergeAndRecord C A cand).states.length := by
  unfold mergeAndRecord
  cases hfind : mergeFind C A.states A.next_frontier cand with
  | some e =>
    dsimp only
    split
    · rw [recordGoal_states]
      simp
    · exact le_refl _
  | none =>
    rw [recordGoal_states]
    simp

theorem expandHeading_len (C : Ctx) (δ : ℚ) (idx : ℕ) (current : State)
    (env_src : EnvironmentSample) (btg : ℚ) (h : ℕ) (A : Acc) :
    A.states.length ≤ (expandHeading C δ idx current env_src btg h A).states.length := by
  rcases expandHeading_shape C δ idx current env_src btg h A with heq | ⟨cand, _, _, _, _, _, heq⟩
  · rw [heq]
  · rw [heq]
    exact mergeAndRecord_len C A cand

theorem foldl_states_len_mono {β : Type} (f : Acc → β → Acc)
    (hf : ∀ A b, A.states.length ≤ (f A b).states.length) :
    ∀ (l : List β) (A : Acc), A.states.length ≤ (l.foldl f A).states.length := by
  intro l
  induction l with
  | nil => intro A; exact le_refl _
  | cons b l ih => intro A; exact le_trans (hf A b) (ih (f A b))

theorem expandState_len (C : Ctx) (δ : ℚ) (A : Acc) (idx : ℕ) :
    A.states.length ≤ (expandState C δ A idx).states.length := by
  simp only [expandState]
  exact foldl_states_len_mono _ (fun A' h' => expandHeading_len C δ idx _ _ _ h' A') _ A

theorem expandLayer_len (C : Ctx) (L : LoopSt) :
    L.states.length ≤ (expandLayer C L).1.states.length := by
  simp only [expandLayer]
  exact foldl_states_len_mono (expandState C (adaptiveTimeStep C L).2)
    (fun A' i => expandState_len C (adaptiveTimeStep C L).2 A' i) L.frontier
    { states := L.states, next_frontier := [], closest_index := L.closest_index,
      closest_distance := L.closest_distance, best_goal_index := L.best_goal_index,
      best_goal_arrival := L.best_goal_arrival, goal_reached := L.goal_reached,
      reached_this_layer := false }

theorem loopGo_states_len (C : Ctx) :
    ∀ (fuel : ℕ) (L : LoopSt), L.states.length ≤ (loopGo C fuel L).states.length := by
  intro fuel
  induction fuel with
  | zero => intro L; exact le_refl _
  | succ n ih =>
    intro L
    rw [loopGo]
    split
    · exact le_refl _
    · dsimp only
      split
      · exact expandLayer_len C { L with step_count := L.step_count + 1 }
      · exact le_trans (expandLayer_len C { L with step_count := L.step_count + 1 })
          (ih { (expandLayer C { L with step_count := L.step_count + 1 }).1 with
                frontier := (expandLayer C { L with step_count := L.step_count + 1 }).2.1 })

theorem mainLoop_states_ne (C : Ctx) : (mainLoop C).states ≠ [] := by
  have h1 := loopGo_states_len C (C.maxSteps.toNat + 1) (initLoop C)
  intro hemp
  rw [mainLoop] at hemp
  rw [hemp] at h1
  simp [initLoop] at h1

/-! ## Diagnostics (claim C2) -/

/-- The terminal state of line 255: the best goal state when one exists,
else the closest-to-goal state. -/
def terminalState (C : Ctx) : State :=
  stateAt (mainLoop C).states (finalIndexOf (mainLoop C)).toNat

/-- C2 (amended): on return the diagnostics carry
total_distance_nm = terminal.cumulative_distance_nm,
eta_hours = terminal.time_hours, step_count, frontier_size,
reached_goal and final_distance_to_goal_nm from the finished loop -- but
average_speed_kts, max_wave_height_m and hazard_flags are never assigned by
solveInternal and keep their zero defaults instead of the values the claim
derives from the terminal state (see the counterexample). -/
theorem solveInternal_diagnostics (P : Prims) (request : Request)
    (sampler : EnvironmentSampler) (corridor : Corridor) (use_corridor : Bool) :
    (solveInternal P request sampler corridor use_corridor).diagnostics.total_distance_nm
      = (terminalState ⟨P, request, sampler, corridor, use_corridor⟩).cumulative_distance_nm ∧
    (solveInternal P request sampler corridor use_corridor).diagnostics.eta_hours
      = (terminalState ⟨P, request, sampler, corridor, use_corridor⟩).time_hours ∧
    (solveInternal P request sampler corridor use_corridor).diagnostics.average_speed_kts = 0 ∧
    (solveInternal P request sampler corridor use_corridor).diagnostics.max_wave_height_m = 0 ∧
    (solveInternal P request sampler corridor use_corridor).diagnostics.hazard_flags = 0 ∧
    (solveInternal P request sampler corridor use_corridor).diagnostics.reached_goal
      = (mainLoop ⟨P, request, sampler, corridor, use_corridor⟩).goal_reached ∧
    (solveInternal P request sampler corridor use_corridor).diagnostics.step_count
      = (mainLoop ⟨P, request, sampler, corridor, use_corridor⟩).step_count ∧
    (solveInternal P request sampler corridor use_corridor).diagnostics.frontier_size
      = (mainLoop ⟨P, request, sampler, corridor, use_corridor⟩).last_frontier_size ∧
    (solveInternal P request sampler corridor use_corridor).diagnostics.final_distance_to_goal_nm
      = greatCircleDistance P
          (terminalState ⟨P, request, sampler, corridor, use_corridor⟩).position request.goal := by
  have hne : (mainLoop (⟨P, request, sampler, corridor, use_corridor⟩ : Ctx)).states.isEmpty = false := by
    rw [List.isEmpty_eq_false]
    exact mainLoop_states_ne _
  simp only [solveInternal, terminalState, hne, Bool.false_eq_true, if_false]
  refine ⟨?_, ?_, ?_, ?_, ?_, ?_, ?_, ?_, ?_⟩ <;> first | rfl | trivial

/-! ## The layer invariant: separation, uniform arrival times, parent order -/

/-- Symmetrized separation of two stored states: in at least one of the two
argument orders their great-circle distance exceeds the merge radius.  The
haversine of the source is symmetric, but the embedded distance is
parametric in the primitives, so the invariant keeps the orientation the
merge scan actually evaluated, closed under swapping so that the
beam-prune permutation preserves it. -/
def SepSym (C : Ctx) (states : List State) (i j : ℕ) : Prop :=
  greatCircleDistance C.prims (stateAt states i).position (stateAt states j).position
      > (C.settings).merge_radius_nm ∨
  greatCircleDistance C.prims (stateAt states j).position (stateAt states i).position
      > (C.settings).merge_radius_nm

theorem SepSym_symm {C : Ctx} {states : List State} {i j : ℕ}
    (h : SepSym C states i j) : SepSym C states j i := h.symm

/-- The arena invariant of claim C9: every non-root state has a parent
stored strictly earlier, arrives strictly later than its parent, has
accumulated at least as much distance, and carries at least the running
maximum wave height of its parent. -/
def StInv (states : List State) : Prop :=
  ∀ j, j < states.length → j ≠ 0 →
    0 ≤ (stateAt states j).parent_index ∧
    (stateAt states j).parent_index < (j : ℤ) ∧
    (stateAt states ((stateAt states j).parent_index.toNat)).time_hours
      < (stateAt states j).time_hours ∧
    (stateAt states ((stateAt states j).parent_index.toNat)).cumulative_distance_nm
      ≤ (stateAt states j).cumulative_distance_nm ∧
    (stateAt states ((stateAt states j).parent_index.toNat)).max_wave_height_m
      ≤ (stateAt states j).max_wave_height_m

/-- Invariant carried through one layer of fan-out.  base is the arena as
it stood when the layer began; Tδ is the common arrival time of everything
queued into the emerging next frontier. -/
structure LayerInv (C : Ctx) (Tδ : ℚ) (base : List State) (A : Acc) : Prop where
  pre : base <+: A.states
  st : StInv A.states
  closest_lt : A.closest_index < A.states.length
  gflag : A.goal_reached = (A.best_goal_index ≠ -1)
  nf_lb : ∀ j ∈ A.next_frontier, base.length ≤ j
  nf_lt : ∀ j ∈ A.next_frontier, j < A.states.length
  nf_time : ∀ j ∈ A.next_frontier, (stateAt A.states j).time_hours = Tδ
  nf_sep : A.next_frontier.Pairwise (SepSym C A.states)

theorem expandHeading_inv (C : Ctx) (δ : ℚ) (base : List State) (Tδ : ℚ)
    (hP : PrimsOK C.prims) (idx : ℕ)
    (hidx : idx < base.length)
    (hTδ : (stateAt base idx).time_hours + δ = Tδ)
    (env_src : EnvironmentSample) (btg : ℚ) (h : ℕ) (A : Acc)
    (hInv : LayerInv C Tδ base A) :
    LayerInv C Tδ base (expandHeading C δ idx (stateAt base idx) env_src btg h A) := by
  rcases expandHeading_shape C δ idx (stateAt base idx) env_src btg h A with
    heq | ⟨cand, htime, hpar, hcum, hwave, htpos, heq⟩
  · rw [heq]; exact hInv
  · rw [heq]
    have hcandT : cand.time_hours = Tδ := by rw [htime, hTδ]
    have hnf_t : ∀ j ∈ A.next_frontier, (stateAt A.states j).time_hours = cand.time_hours := by
      intro j hj
      rw [hInv.nf_time j hj, hcandT]
    rcases mergeAndRecord_cases C A cand hnf_t with ⟨_, heq2⟩ | ⟨hnone, heq2⟩
    · rw [heq2]; exact hInv
    · rw [heq2]
      have hbl : base.length ≤ A.states.length := hInv.pre.length_le
      have hcur : stateAt A.states idx = stateAt base idx :=
        stateAt_prefix hInv.pre hidx
      -- the candidate is appended at index A.states.length
      have happlen : (A.states ++ [cand]).length = A.states.length + 1 := by
        simp
      have hst : StInv (A.states ++ [cand]) := by
        intro j hj hj0
        rw [happlen] at hj
        by_cases hjl : j < A.states.length
        · have e1 : stateAt (A.states ++ [cand]) j = stateAt A.states j :=
            stateAt_append_left hjl
          have old := hInv.st j hjl hj0
          have hpb : (stateAt A.states j).parent_index.toNat < A.states.length := by
            omega
          have e2 : stateAt (A.states ++ [cand]) ((stateAt A.states j).parent_index.toNat)
              = stateAt A.states ((stateAt A.states j).parent_index.toNat) :=
            stateAt_append_left hpb
          rw [e1, e2]
          exact old
        · have hjeq : j = A.states.length := by omega
          subst hjeq
          rw [stateAt_append_self]
          have hptn : cand.parent_index.toNat = idx := by
            rw [hpar]; exact Int.toNat_natCast idx
          have hidxA : idx < A.states.length := lt_of_lt_of_le hidx hbl
          have e3 : stateAt (A.states ++ [cand]) cand.parent_index.toNat
              = stateAt base idx := by
            rw [hptn, stateAt_append_left hidxA, hcur]
          rw [e3, hpar]
          refine ⟨Int.natCast_nonneg idx, by exact_mod_cast hidxA, ?time, ?cum, ?wave⟩
          case time => exact htpos hP
          case cum => linarith
          case wave => exact hwave
      refine ⟨?pre, ?st, ?closest, ?gflag, ?lb, ?lt, ?time, ?sep⟩
      case pre =>
        rw [recordGoal_states]
        exact hInv.pre.trans (List.prefix_append A.states [cand])
      case st =>
        rw [recordGoal_states]
        exact hst
      case closest =>
        rw [recordGoal_states]
        rcases recordGoal_closest C
            { A with states := A.states ++ [cand],
                     next_frontier := A.next_frontier ++ [A.states.length] }
            A.states.length with hcl | hcl <;> rw [hcl]
        · show A.closest_index < (A.states ++ [cand]).length
          rw [happlen]
          exact lt_trans hInv.closest_lt (by omega)
        · show A.states.length < (A.states ++ [cand]).length
          rw [happlen]
          omega
      case gflag =>
        exact recordGoal_gflag C _ _ hInv.gflag
      case lb =>
        rw [recordGoal_next_frontier]
        intro j hj
        rcases List.mem_append.mp hj with hjo | hjn
        · exact hInv.nf_lb j hjo
        · rw [List.mem_singleton.mp hjn]
          exact hbl
      case lt =>
        rw [recordGoal_next_frontier, recordGoal_states, happlen]
        intro j hj
        rcases List.mem_append.mp hj with hjo | hjn
        · exact lt_trans (hInv.nf_lt j hjo) (by omega)
        · rw [List.mem_singleton.mp hjn]
          omega
      case time =>
        rw [recordGoal_next_frontier, recordGoal_states]
        intro j hj
        rcases List.mem_append.mp hj with hjo | hjn
        · rw [stateAt_append_left (hInv.nf_lt j hjo)]
          exact hInv.nf_time j hjo
        · rw [List.mem_singleton.mp hjn, stateAt_append_self]
          exact hcandT
      case sep =>
        rw [recordGoal_next_frontier, recordGoal_states]
        rw [List.pairwise_append]
        refine ⟨?old, List.pairwise_singleton _ _, ?cross⟩
        case old =>
          refine hInv.nf_sep.imp_of_mem ?imp
          intro a b ha hb hab
          unfold SepSym at hab ⊢
          rw [stateAt_append_left (hInv.nf_lt a ha), stateAt_append_left (hInv.nf_lt b hb)]
          exact hab
        case cross =>
          intro a ha b hb
          rw [List.mem_singleton.mp hb]
          left
          rw [stateAt_append_left (hInv.nf_lt a ha), stateAt_append_self]
          have hfail := List.find?_eq_none.mp hnone a ha
          simp only [decide_eq_true_eq] at hfail
          exact lt_of_not_le hfail

theorem foldl_expandHeading_inv (C : Ctx) (δ : ℚ) (base : List State) (Tδ : ℚ)
    (hP : PrimsOK C.prims) (idx : ℕ)
    (hidx : idx < base.length)
    (hTδ : (stateAt base idx).time_hours + δ = Tδ)
    (env_src : EnvironmentSample) (btg : ℚ) :
    ∀ (l : List ℕ) (A : Acc), LayerInv C Tδ base A →
      LayerInv C Tδ base
        (l.foldl (fun Acur hh => expandHeading C δ idx (stateAt base idx) env_src btg hh Acur) A) := by
  intro l
  induction l with
  | nil => intro A hA; exact hA
  | cons hh l ih =>
    intro A hA
    exact ih _ (expandHeading_inv C δ base Tδ hP idx hidx hTδ env_src btg hh A hA)

theorem expandState_inv (C : Ctx) (δ : ℚ) (base : List State) (Tδ : ℚ)
    (hP : PrimsOK C.prims) (idx : ℕ)
    (hidx : idx < base.length)
    (hTδ : (stateAt base idx).time_hours + δ = Tδ)
    (A : Acc) (hInv : LayerInv C Tδ base A) :
    LayerInv C Tδ base (expandState C δ A idx) := by
  have hcur : stateAt A.states idx = stateAt base idx := stateAt_prefix hInv.pre hidx
  simp only [expandState, hcur]
  exact foldl_expandHeading_inv C δ base Tδ hP idx hidx hTδ _ _ _ A hInv

theorem foldl_expandState_inv (C : Ctx) (δ : ℚ) (base : List State) (Tδ : ℚ)
    (hP : PrimsOK C.prims) :
    ∀ (l : List ℕ),
      (∀ i ∈ l, i < base.length ∧ (stateAt base i).time_hours + δ = Tδ) →
      ∀ A, LayerInv C Tδ base A → LayerInv C Tδ base (l.foldl (expandState C δ) A) := by
  intro l
  induction l with
  | nil => intro _ A hA; exact hA
  | cons i l ih =>
    intro hl A hA
    have hi := hl i (List.mem_cons_self i l)
    exact ih (fun j hj => hl j (List.mem_cons_of_mem i hj)) _
      (expandState_inv C δ base Tδ hP i hi.1 hi.2 A hA)

/-! ## The loop invariant -/

structure LoopInv (C : Ctx) (L : LoopSt) : Prop where
  states_ne : L.states ≠ []
  st : StInv L.states
  closest_lt : L.closest_index < L.states.length
  gflag : L.goal_reached = (L.best_goal_index ≠ -1)
  front_lt : ∀ i ∈ L.frontier, i < L.states.length
  front_time : ∃ T, ∀ i ∈ L.frontier, (stateAt L.states i).time_hours = T

theorem beamPrune_mem (C : Ctx) (states : List State) (nf : List ℕ) :
    ∀ j ∈ (beamPrune C states nf).1, j ∈ nf := by
  unfold beamPrune
  split
  · intro j hj
    have h1 := List.mem_of_mem_take hj
    exact (sortBy_perm _ nf).mem_iff.mp h1
  · intro j hj
    exact hj

theorem beamPrune_pairwise (C : Ctx) (states : List State) (nf : List ℕ)
    (h : nf.Pairwise (SepSym C states)) :
    (beamPrune C states nf).1.Pairwise (SepSym C states) := by
  unfold beamPrune
  split
  · refine List.Pairwise.sublist (List.take_sublist _ _) ?sorted
    exact h.perm (sortBy_perm _ nf).symm (fun hab => SepSym_symm hab)
  · exact h

/-- Master lemma for one layer: starting from a loop state satisfying the
invariant, the layer preserves the invariant both along the break path
(frontier untouched) and along the swap path (frontier replaced by the
emitted next frontier), and the emitted next frontier is pairwise
separated by more than the merge radius. -/
theorem expandLayer_inv (C : Ctx) (L : LoopSt) (hP : PrimsOK C.prims)
    (hInv : LoopInv C L) :
    LoopInv C (expandLayer C L).1 ∧
    LoopInv C { (expandLayer C L).1 with frontier := (expandLayer C L).2.1 } ∧
    ((expandLayer C L).2.1).Pairwise (SepSym C (expandLayer C L).1.states) := by
  obtain ⟨T, hT⟩ := hInv.front_time
  have hA0 : LayerInv C (T + (adaptiveTimeStep C L).2) L.states
      { states := L.states, next_frontier := [],
        closest_index := L.closest_index, closest_distance := L.closest_distance,
        best_goal_index := L.best_goal_index, best_goal_arrival := L.best_goal_arrival,
        goal_reached := L.goal_reached, reached_this_layer := false } := by
    refine ⟨List.prefix_refl _, hInv.st, hInv.closest_lt, hInv.gflag, ?lb, ?lt, ?time, ?sep⟩
    case lb => intro j hj; cases hj
    case lt => intro j hj; cases hj
    case time => intro j hj; cases hj
    case sep => exact List.Pairwise.nil
  have hA := foldl_expandState_inv C (adaptiveTimeStep C L).2 L.states
      (T + (adaptiveTimeStep C L).2) hP L.frontier
      (fun i hi => ⟨hInv.front_lt i hi, by rw [hT i hi]⟩) _ hA0
  have hEstates : (expandLayer C L).1.states
      = (L.frontier.foldl (expandState C (adaptiveTimeStep C L).2)
          { states := L.states, next_frontier := [],
            closest_index := L.closest_index, closest_distance := L.closest_distance,
            best_goal_index := L.best_goal_index, best_goal_arrival := L.best_goal_arrival,
            goal_reached := L.goal_reached, reached_this_layer := false }).states := rfl
  have hEnf : (expandLayer C L).2.1
      = (beamPrune C (expandLayer C L).1.states
          (L.frontier.foldl (expandState C (adaptiveTimeStep C L).2)
            { states := L.states, next_frontier := [],
              closest_index := L.closest_index, closest_distance := L.closest_distance,
              best_goal_index := L.best_goal_index, best_goal_arrival := L.best_goal_arrival,
              goal_reached := L.goal_reached, reached_this_layer := false }).next_frontier).1 := rfl
  have hne2 : (expandLayer C L).1.states ≠ [] := by
    have h1 := expandLayer_len C L
    intro hemp
    rw [hemp] at h1
    simp at h1
    exact hInv.states_ne h1
  refine ⟨⟨hne2, hA.st, hA.closest_lt, hA.gflag, ?flt, ?ftime⟩,
          ⟨hne2, hA.st, hA.closest_lt, hA.gflag, ?flt2, ?ftime2⟩, ?sep⟩
  case flt =>
    intro i hi
    show i < (expandLayer C L).1.states.length
    rw [hEstates]
    exact lt_of_lt_of_le (hInv.front_lt i hi) hA.pre.length_le
  case ftime =>
    refine ⟨T, fun i hi => ?_⟩
    show (stateAt (expandLayer C L).1.states i).time_hours = T
    rw [hEstates, stateAt_prefix hA.pre (hInv.front_lt i hi)]
    exact hT i hi
  case flt2 =>
    intro i hi
    show i < (expandLayer C L).1.states.length
    rw [hEstates]
    rw [hEnf, hEstates] at hi
    exact hA.nf_lt i (beamPrune_mem C _ _ i hi)
  case ftime2 =>
    refine ⟨T + (adaptiveTimeStep C L).2, fun i hi => ?_⟩
    show (stateAt (expandLayer C L).1.states i).time_hours = _
    rw [hEnf, hEstates] at hi
    rw [hEstates]
    exact hA.nf_time i (beamPrune_mem C _ _ i hi)
  case sep =>
    rw [hEnf, hEstates]
    exact beamPrune_pairwise C _ _ hA.nf_sep

theorem LoopInv_step_count (C : Ctx) (L : LoopSt) (c : ℤ) (h : LoopInv C L) :
    LoopInv C { L with step_count := c } :=
  ⟨h.states_ne, h.st, h.closest_lt, h.gflag, h.front_lt, h.front_time⟩

theorem loopGo_inv (C : Ctx) (hP : PrimsOK C.prims) :
    ∀ (fuel : ℕ) (L : LoopSt), LoopInv C L → LoopInv C (loopGo C fuel L) := by
  intro fuel
  induction fuel with
  | zero => intro L h; exact h
  | succ n ih =>
    intro L h
    rw [loopGo]
    split
    · exact h
    · dsimp only
      split
      · exact (expandLayer_inv C _ hP (LoopInv_step_count C L _ h)).1
      · exact ih _ (expandLayer_inv C _ hP (LoopInv_step_count C L _ h)).2.1

theorem initLoop_inv (C : Ctx) : LoopInv C (initLoop C) := by
  refine ⟨?ne, ?st, ?cl, ?gf, ?flt, ?ftime⟩
  case ne => simp [initLoop]
  case st => intro j hj hj0; simp [initLoop] at hj; omega
  case cl => simp [initLoop]
  case gf => simp [initLoop]
  case flt => intro i hi; simp [initLoop] at hi ⊢; omega
  case ftime =>
    refine ⟨C.request.departure_time_hours, fun i hi => ?_⟩
    simp [initLoop] at hi
    subst hi
    simp [initLoop, stateAt]

theorem mainLoop_inv (C : Ctx) (hP : PrimsOK C.prims) : LoopInv C (mainLoop C) :=
  loopGo_inv C hP _ _ (initLoop_inv C)

/-! ## Claim C4: merge separation of every emitted layer -/

/-- C4: the emitted next frontier of every layer of the main loop is
pairwise separated by more than merge_radius_nm.  Stated as an inductive
package: the loop invariant holds initially, each layer preserves it along
both the break path and the swap path, and from the invariant the layer
emits a pairwise-separated next frontier.  (The merge scan checks one
argument order of the great-circle distance; SepSym records that order,
closed under the symmetry the haversine of the source enjoys.) -/
theorem merge_radius_separation (P : Prims) (request : Request)
    (sampler : EnvironmentSampler) (corridor : Corridor) (use_corridor : Bool)
    (hP : PrimsOK P) :
    LoopInv ⟨P, request, sampler, corridor, use_corridor⟩
      (initLoop ⟨P, request, sampler, corridor, use_corridor⟩) ∧
    (∀ L, LoopInv ⟨P, request, sampler, corridor, use_corridor⟩ L →
      LoopInv ⟨P, request, sampler, corridor, use_corridor⟩
        (expandLayer ⟨P, request, sampler, corridor, use_corridor⟩ L).1 ∧
      LoopInv ⟨P, request, sampler, corridor, use_corridor⟩
        { (expandLayer ⟨P, request, sampler, corridor, use_corridor⟩ L).1 with
          frontier := (expandLayer ⟨P, request, sampler, corridor, use_corridor⟩ L).2.1 }) ∧
    (∀ L, LoopInv ⟨P, request, sampler, corridor, use_corridor⟩ L →
      ((expandLayer ⟨P, request, sampler, corridor, use_corridor⟩ L).2.1).Pairwise
        (SepSym ⟨P, request, sampler, corridor, use_corridor⟩
          (expandLayer ⟨P, request, sampler, corridor, use_corridor⟩ L).1.states)) := by
  refine ⟨initLoop_inv _, ?pres, ?emit⟩
  case pres =>
    intro L hL
    have h := expandLayer_inv ⟨P, request, sampler, corridor, use_corridor⟩ L hP hL
    exact ⟨h.1, h.2.1⟩
  case emit =>
    intro L hL
    exact (expandLayer_inv ⟨P, request, sampler, corridor, use_corridor⟩ L hP hL).2.2

/-! ## Claim C9: parent order and monotonicity along paths -/

/-- C9: in the finished state arena of any solve, every non-root state has
parent_index in [0, j) (so the parent graph is a forest rooted at state 0),
arrives strictly later than its parent, has cumulative distance at least
that of its parent, and max wave height at least that of its parent;
consecutive states of any reconstructed path stand exactly in this
parent-link relation. -/
theorem parent_forest_and_monotone (P : Prims) (request : Request)
    (sampler : EnvironmentSampler) (corridor : Corridor) (use_corridor : Bool)
    (hP : PrimsOK P) :
    StInv (mainLoop ⟨P, request, sampler, corridor, use_corridor⟩).states :=
  (mainLoop_inv ⟨P, request, sampler, corridor, use_corridor⟩ hP).st

/-! ## Claim C5: termination without reaching the goal -/

/-- C5: when the main loop finishes without any state entering the goal
radius, solveInternal returns reached_goal = false and the raw waypoint
list is the backtracked path to the closest-to-goal state, as a normal
outcome; the state arena is never empty (the start state is always
pushed), so the empty-result guard of line 253 never fires. -/
theorem no_goal_closest_path (P : Prims) (request : Request)
    (sampler : EnvironmentSampler) (corridor : Corridor) (use_corridor : Bool)
    (hP : PrimsOK P)
    (hng : (mainLoop ⟨P, request, sampler, corridor, use_corridor⟩).goal_reached = false) :
    (solveInternal P request sampler corridor use_corridor).diagnostics.reached_goal = false ∧
    (solveInternal P request sampler corridor use_corridor).waypoints_raw
      = (backtrack (mainLoop ⟨P, request, sampler, corridor, use_corridor⟩).states
          ((mainLoop ⟨P, request, sampler, corridor, use_corridor⟩).closest_index : ℤ)).map
          (fun i => stateWaypoint
            (stateAt (mainLoop ⟨P, request, sampler, corridor, use_corridor⟩).states i)) ∧
    (mainLoop ⟨P, request, sampler, corridor, use_corridor⟩).states ≠ [] := by
  have hInv := mainLoop_inv ⟨P, request, sampler, corridor, use_corridor⟩ hP
  have hgf := hInv.gflag
  rw [hng] at hgf
  have hbest : (mainLoop (⟨P, request, sampler, corridor, use_corridor⟩ : Ctx)).best_goal_index
      = -1 := by
    have h2 : ¬ ((mainLoop (⟨P, request, sampler, corridor, use_corridor⟩ : Ctx)).best_goal_index
        ≠ -1) := by simpa using hgf.symm
    omega
  have hfin : finalIndexOf (mainLoop ⟨P, request, sampler, corridor, use_corridor⟩)
      = ((mainLoop (⟨P, request, sampler, corridor, use_corridor⟩ : Ctx)).closest_index : ℤ) := by
    unfold finalIndexOf
    rw [if_neg (by simp [hbest])]
  have hne : (mainLoop (⟨P, request, sampler, corridor, use_corridor⟩ : Ctx)).states.isEmpty
      = false := by
    rw [List.isEmpty_eq_false]
    exact mainLoop_states_ne _
  refine ⟨?reached, ?path, mainLoop_states_ne _⟩
  case reached =>
    simp only [solveInternal, hne, Bool.false_eq_true, if_false]
    exact hng
  case path =>
    simp only [solveInternal, hne, Bool.false_eq_true, if_false]
    rw [hfin]

/-! ## Claim C1: high waves are recorded, never rejected -/

theorem lor_one_and_one (x : ℕ) : (x ||| 1) &&& 1 = 1 := by
  rw [Nat.and_distrib_right, Nat.and_one_is_mod]
  rcases Nat.mod_two_eq_zero_or_one x with h | h <;> rw [h] <;> rfl

/-- C1: a fan-out candidate that passes every gate of the engine (bearing
window, heading change, minimum leg, land sampling, corridor, depth) is
merged or inserted regardless of its destination wave height; when the
destination wave height exceeds the cap of the ship, the HIGH_WAVE flag is
set on the candidate, and when no earlier state of the layer lies within
the merge radius the candidate is appended to the arena and to the next
frontier.  There is no wave-height gate in the fan-out. -/
theorem high_wave_recorded_not_rejected (C : Ctx) (δ : ℚ) (idx : ℕ) (current : State)
    (env_src : EnvironmentSample) (btg : ℚ) (h : ℕ) (A : Acc)
    (heading distance_nm : ℚ) (env_dst : EnvironmentSample)
    (eh : heading = C.bearingIncrement * (h : ℚ))
    (ed : distance_nm = legDistance C env_src heading δ)
    (ee : env_dst = C.sampler
        (advancePosition C.prims current.position heading distance_nm).lat
        (advancePosition C.prims current.position heading distance_nm).lon
        (current.time_hours + δ))
    (g1 : ¬ headingDifference btg heading > (C.settings).bearing_window_deg)
    (g2 : ¬ (current.heading_deg.isSome = true ∧
        headingDifference (current.heading_deg.getD 0) heading
          > C.request.ship.max_heading_change_deg))
    (g3 : ¬ distance_nm < 1/20)
    (g4 : ¬ intersectsLandOrShallow C current heading distance_nm δ = true)
    (g5 : ¬ (C.use_corridor = true ∧
        ¬ corridorContains C.prims C.corridor
            (advancePosition C.prims current.position heading distance_nm) = true))
    (g6 : ¬ env_dst.depth_m + EPS < C.minDepth)
    (hw : env_dst.wave_height_m > C.request.ship.max_wave_height_m)
    (hnone : mergeFind C A.states A.next_frontier
        (mkCandidate C idx current heading distance_nm δ env_src env_dst) = none) :
    (mkCandidate C idx current heading distance_nm δ env_src env_dst).hazard_flags
        &&& HazardFlags.HIGH_WAVE = 1 ∧
    (expandHeading C δ idx current env_src btg h A).states
      = A.states ++ [mkCandidate C idx current heading distance_nm δ env_src env_dst] ∧
    (expandHeading C δ idx current env_src btg h A).next_frontier
      = A.next_frontier ++ [A.states.length] := by
  subst eh
  subst ed
  set cand := mkCandidate C idx current (C.bearingIncrement * (h : ℚ))
    (legDistance C env_src (C.bearingIncrement * (h : ℚ)) δ) δ env_src env_dst with hcand
  have hexp : expandHeading C δ idx current env_src btg h A = mergeAndRecord C A cand := by
    simp only [expandHeading]
    rw [if_neg g1, if_neg g2, if_neg g3, if_neg g4, if_neg g5]
    rw [← ee, if_neg g6]
  have h1 : (mergeAndRecord C A cand).states = A.states ++ [cand] := by
    unfold mergeAndRecord
    rw [hnone]
    dsimp only
    rw [recordGoal_states]
  have h2 : (mergeAndRecord C A cand).next_frontier = A.next_frontier ++ [A.states.length] := by
    unfold mergeAndRecord
    rw [hnone]
    dsimp only
    rw [recordGoal_next_frontier]
  refine ⟨?flag, by rw [hexp, h1], by rw [hexp, h2]⟩
  case flag =>
    rw [hcand]
    simp only [mkCandidate]
    rw [if_pos hw]
    exact lor_one_and_one current.hazard_flags

/-! ## Concrete scenarios used by the witnesses and counterexamples.
prims0 fixes the abstracted primitives to simple functions that satisfy
every analytic hypothesis the theorems use (its sqrt is nonnegative on
nonnegative inputs); the scenarios make one candidate reach the goal in the
first layer (constant high wave) or kill every candidate (land). -/

def prims0 : Prims :=
  { sin := fun _ => 0, cos := fun _ => 1, asin := fun _ => 0,
    atan2 := fun _ _ => 0, sqrt := fun x => max 0 x }

theorem prims0_ok : PrimsOK prims0 := fun x _ => le_max_left 0 x

def ship0 : ShipModel := { calm_speed_kts := 3, wave_drag_coefficient := 0 }

def settings0 : Settings := { time_step_minutes := 15, heading_count := 8 }

def req0 : Request := { ship := ship0, settings := settings0 }

def samplerWave5 : EnvironmentSampler := fun _ _ _ => { wave_height_m := 5 }

def samplerLand : EnvironmentSampler := fun _ _ _ => { depth_m := 0 }

def ctxW5 : Ctx := ⟨prims0, req0, samplerWave5, {}, false⟩

def ctxLand : Ctx := ⟨prims0, req0, samplerLand, {}, false⟩

def accW5 : Acc :=
  { states := [{}], next_frontier := [], closest_index := 0, closest_distance := 0,
    best_goal_index := -1, best_goal_arrival := DBL_MAX, goal_reached := false,
    reached_this_layer := false }

def candW5 : State :=
  mkCandidate ctxW5 0 {} 0 (9/4) (1/4) { wave_height_m := 5 } { wave_height_m := 5 }

def wp3 : List Waypoint := [{}, {}, {}]

def s8bad : Settings := { min_time_step_minutes := -5, complexity_threshold := 2 }

def s8zero : Settings := { max_hours := 0 }

/-! ## Witnesses and counterexamples on the concrete scenarios -/

/-- Witness for C1: in the constant wave-5 scenario with a 4.5 m cap, the
first-layer candidate passes every gate, carries the HIGH_WAVE flag, is
appended to the arena and the next frontier, and the full solve still
returns a two-waypoint path. -/
theorem high_wave_witness :
    candW5.hazard_flags &&& HazardFlags.HIGH_WAVE = 1 ∧
    (expandHeading ctxW5 (1/4) 0 {} { wave_height_m := 5 } 0 0 accW5).states
      = accW5.states ++ [candW5] ∧
    (expandHeading ctxW5 (1/4) 0 {} { wave_height_m := 5 } 0 0 accW5).next_frontier
      = accW5.next_frontier ++ [accW5.states.length] ∧
    (solve prims0 req0 samplerWave5).waypoints.length = 2 := by
  have hmain := high_wave_recorded_not_rejected ctxW5 (1/4) 0 {} { wave_height_m := 5 } 0 0 accW5
    0 (9/4) { wave_height_m := 5 }
    (by with_unfolding_all decide)
    (by with_unfolding_all decide)
    rfl
    (by with_unfolding_all decide)
    (by with_unfolding_all decide)
    (by with_unfolding_all decide)
    (by with_unfolding_all decide)
    (by with_unfolding_all decide)
    (by with_unfolding_all decide)
    (by with_unfolding_all decide)
    (by with_unfolding_all decide)
  exact ⟨hmain.1, hmain.2.1, hmain.2.2, by with_unfolding_all decide⟩

/-- Witness for C4: the invariant package applied to the wave-5 scenario
shows the first emitted layer is pairwise separated. -/
theorem merge_sep_witness :
    PrimsOK prims0 ∧
    ((expandLayer ctxW5 (initLoop ctxW5)).2.1).Pairwise
      (SepSym ctxW5 (expandLayer ctxW5 (initLoop ctxW5)).1.states) :=
  ⟨prims0_ok,
    (merge_radius_separation prims0 req0 samplerWave5 {} false prims0_ok).2.2
      (initLoop ctxW5)
      (merge_radius_separation prims0 req0 samplerWave5 {} false prims0_ok).1⟩

/-- Witness for C9 on the wave-5 scenario. -/
theorem parent_forest_witness :
    PrimsOK prims0 ∧ StInv (mainLoop ctxW5).states :=
  ⟨prims0_ok, parent_forest_and_monotone prims0 req0 samplerWave5 {} false prims0_ok⟩

/-- Witness for C5 on the all-land scenario: the frontier dies in the first
layer, the goal is never reached, and the result is the backtracked path to
the closest state with reached_goal false. -/
theorem no_goal_witness :
    (mainLoop ctxLand).goal_reached = false ∧
    (solveInternal prims0 req0 samplerLand {} false).diagnostics.reached_goal = false ∧
    (solveInternal prims0 req0 samplerLand {} false).waypoints_raw
      = (backtrack (mainLoop ctxLand).states ((mainLoop ctxLand).closest_index : ℤ)).map
          (fun i => stateWaypoint (stateAt (mainLoop ctxLand).states i)) ∧
    (mainLoop ctxLand).states ≠ [] := by
  have hng : (mainLoop ctxLand).goal_reached = false := by with_unfolding_all decide
  have hmain := no_goal_closest_path prims0 req0 samplerLand {} false prims0_ok hng
  exact ⟨hng, hmain.1, hmain.2.1, hmain.2.2⟩

/-- Witness for C7 on a three-point polyline. -/
theorem dp_tolerance_witness :
    0 < (1 : ℚ) ∧ 2 < wp3.length ∧
    (∀ (k : ℕ) (hk : k + 1 < (simplifyIndices prims0 wp3 1 []).length),
      ∀ m : ℤ, (simplifyIndices prims0 wp3 1 []).get ⟨k, by omega⟩ < m →
        m < (simplifyIndices prims0 wp3 1 []).get ⟨k + 1, hk⟩ →
        dpDist prims0 wp3 ((simplifyIndices prims0 wp3 1 []).get ⟨k, by omega⟩)
          ((simplifyIndices prims0 wp3 1 []).get ⟨k + 1, hk⟩) m ≤ 1) :=
  ⟨by norm_num, by decide, dp_tolerance_consecutive prims0 wp3 1 [] (by norm_num) (by decide)⟩

/-- Witness for C8: with max_hours = 0 the substituted default 240 comes
out of the clamping, and heading_count respects its lower bound. -/
theorem clamp_ranges_witness :
    (clampSettings s8zero).max_hours = 240 ∧ 8 ≤ (clampSettings s8zero).heading_count :=
  ⟨(clampSettings_ranges s8zero).2.2.2.2.2.1 (by with_unfolding_all decide),
    (clampSettings_ranges s8zero).2.1.1⟩

/-- Counterexample for C2 as stated: in the wave-5 run the terminal state
carries max wave 5 and the HIGH_WAVE flag, the travel time is positive and
the distance nonzero, yet the diagnostics report zero for
max_wave_height_m, hazard_flags and average_speed_kts. -/
theorem diagnostics_counterexample :
    (terminalState ctxW5).max_wave_height_m = 5 ∧
    (solveInternal prims0 req0 samplerWave5 {} false).diagnostics.max_wave_height_m = 0 ∧
    (terminalState ctxW5).hazard_flags = 1 ∧
    (solveInternal prims0 req0 samplerWave5 {} false).diagnostics.hazard_flags = 0 ∧
    (solveInternal prims0 req0 samplerWave5 {} false).diagnostics.eta_hours
      - req0.departure_time_hours > 0 ∧
    (solveInternal prims0 req0 samplerWave5 {} false).diagnostics.total_distance_nm ≠ 0 ∧
    (solveInternal prims0 req0 samplerWave5 {} false).diagnostics.average_speed_kts = 0 := by
  with_unfolding_all decide

/-- Counterexample for C6 as stated: with preserve set P = ~1~ on a
three-point polyline and tolerance 1, index 1 does not appear in the
simplified output, because dpSimplifyRecursive never reads its preserve
argument. -/
theorem preserve_ignored_counterexample :
    0 < (1 : ℚ) ∧ 2 < wp3.length ∧ (1 : ℤ) ∈ ([1] : List ℤ) ∧
    ¬ ((1 : ℤ) ∈ simplifyIndices prims0 wp3 1 [1]) := by
  with_unfolding_all decide

/-- Counterexample for C8 as stated: the adaptive-stepping fields are not
clamped on entry; a negative minimum time step and a complexity threshold
of 2 survive the clamping stage unchanged. -/
theorem clamp_adaptive_counterexample :
    (clampSettings s8bad).min_time_step_minutes = -5 ∧
    (clampSettings s8bad).complexity_threshold = 2 ∧
    ¬ ((clampSettings s8bad).complexity_threshold ≤ 1) ∧
    ¬ (0 < (clampSettings s8bad).min_time_step_minutes) := by
  with_unfolding_all decide

end SeaSight
